import Mathlib

/-!
Verification development for a block-structured finite-volume flow solver.
The definitions below are shallow embeddings of functions from the solver
sources (procBlock.cpp, parallel.cpp, utility.cpp): machine doubles are
modelled by rationals, C++ ints by integers (loop counters that are
manifestly non-negative by naturals), and arrays by total functions from
index triples.  Each definition cites the source function it translates.
-/

namespace Aither

/-- Cell index triple (i, j, k), mirroring vector3d of int. -/
abbrev Cell : Type := ℤ × ℤ × ℤ

/-- Value of vector3d of double. -/
abbrev Vec3 : Type := ℚ × ℚ × ℚ

/-- Conserved-variable record, mirroring genArray (7 doubles). -/
structure GenArray where
  mass : ℚ
  mx : ℚ
  my : ℚ
  mz : ℚ
  e : ℚ
  tke : ℚ
  omg : ℚ
deriving DecidableEq

namespace GenArray

/-- Componentwise addition of genArray. -/
def add (a b : GenArray) : GenArray :=
  ⟨a.mass + b.mass, a.mx + b.mx, a.my + b.my, a.mz + b.mz,
   a.e + b.e, a.tke + b.tke, a.omg + b.omg⟩

/-- Componentwise subtraction of genArray. -/
def sub (a b : GenArray) : GenArray :=
  ⟨a.mass - b.mass, a.mx - b.mx, a.my - b.my, a.mz - b.mz,
   a.e - b.e, a.tke - b.tke, a.omg - b.omg⟩

/-- Scalar multiple of a genArray. -/
def smul (c : ℚ) (a : GenArray) : GenArray :=
  ⟨c * a.mass, c * a.mx, c * a.my, c * a.mz, c * a.e, c * a.tke, c * a.omg⟩

/-- Componentwise product (used for the L2 accumulation r * r). -/
def mul (a b : GenArray) : GenArray :=
  ⟨a.mass * b.mass, a.mx * b.mx, a.my * b.my, a.mz * b.mz,
   a.e * b.e, a.tke * b.tke, a.omg * b.omg⟩

/-- Component access by equation index 0..6, mirroring genArray operator[]. -/
def comp (a : GenArray) (ll : ℕ) : ℚ :=
  match ll with
  | 0 => a.mass
  | 1 => a.mx
  | 2 => a.my
  | 3 => a.mz
  | 4 => a.e
  | 5 => a.tke
  | _ => a.omg

/-- All-zero genArray, mirroring genArray(0.0). -/
def zero : GenArray := ⟨0, 0, 0, 0, 0, 0, 0⟩

end GenArray

/-- Primitive-variable record, mirroring primVars (rho, u, v, w, p, k, omega). -/
structure PrimVars where
  rho : ℚ
  u : ℚ
  v : ℚ
  w : ℚ
  p : ℚ
  tke : ℚ
  omg : ℚ
deriving DecidableEq

/-- Modelled from the spec: primVars::ConsVars (primVars.cpp is not under
src/).  The primitive view (rho, u, v, w, p, k, omega) is converted to the
conserved view (density, three momenta, total energy, two turbulence
scalars) through the ideal-gas law with ratio of specific heats g. -/
def consVars (g : ℚ) (s : PrimVars) : GenArray :=
  ⟨s.rho, s.rho * s.u, s.rho * s.v, s.rho * s.w,
   s.p / (g - 1) + s.rho * (s.u * s.u + s.v * s.v + s.w * s.w) / 2,
   s.rho * s.tke, s.rho * s.omg⟩

/-- Modelled from the spec: the primVars constructor taking a genArray of
conserved variables (primVars.cpp is not under src/); the inverse of
consVars for the same ideal gas. -/
def primVarsFromCons (g : ℚ) (c : GenArray) : PrimVars :=
  ⟨c.mass, c.mx / c.mass, c.my / c.mass, c.mz / c.mass,
   (g - 1) * (c.e - (c.mx * c.mx + c.my * c.my + c.mz * c.mz) / (2 * c.mass)),
   c.tke / c.mass, c.omg / c.mass⟩

/-- Modelled from the spec: primVars::UpdateWithConsVars (not under src/);
applies an update in conserved variables to a primitive state. -/
def updateWithConsVars (g : ℚ) (s : PrimVars) (du : GenArray) : PrimVars :=
  primVarsFromCons g ((consVars g s).add du)

/-- Round trip of the two spec-modelled conversions: converting a conserved
vector to primitive variables and back is the identity whenever the density
is non-zero and the gas has g different from 1. -/
theorem consVars_primVarsFromCons (g : ℚ) (c : GenArray)
    (hrho : c.mass ≠ 0) (hg : g - 1 ≠ 0) :
    consVars g (primVarsFromCons g c) = c := by
  unfold consVars primVarsFromCons
  cases c with
  | mk mass mx my mz e tke omg =>
    simp only [GenArray.mk.injEq]
    and_intros <;> first | rfl | (field_simp; try ring)

/-- List of physical cell indices in loop order (kk outer, jj, ii inner),
as iterated by the triple loops of procBlock.cpp. -/
def cellList (nI nJ nK : ℕ) : List Cell :=
  ((List.range nK).product ((List.range nJ).product (List.range nI))).map
    (fun t => ((t.2.2 : ℤ), (t.2.1 : ℤ), (t.1 : ℤ)))

theorem mem_cellList (nI nJ nK : ℕ) (c : Cell) :
    c ∈ cellList nI nJ nK ↔
      0 ≤ c.1 ∧ c.1 < (nI : ℤ) ∧ 0 ≤ c.2.1 ∧ c.2.1 < (nJ : ℤ) ∧
        0 ≤ c.2.2 ∧ c.2.2 < (nK : ℤ) := by
  obtain ⟨x, y, z⟩ := c
  dsimp only
  constructor
  · intro h
    obtain ⟨⟨kk, jj, ii⟩, hmem, heq⟩ := List.mem_map.mp h
    obtain ⟨hk, hji⟩ := List.pair_mem_product.mp hmem
    obtain ⟨hj, hi⟩ := List.pair_mem_product.mp hji
    rw [List.mem_range] at hk hj hi
    simp only [Prod.mk.injEq] at heq
    obtain ⟨h1, h2, h3⟩ := heq
    subst h1
    subst h2
    subst h3
    omega
  · rintro ⟨hx0, hx, hy0, hy, hz0, hz⟩
    refine List.mem_map.mpr ⟨(z.toNat, y.toNat, x.toNat), ?_, ?_⟩
    · exact List.pair_mem_product.mpr ⟨List.mem_range.mpr (by omega),
        List.pair_mem_product.mpr ⟨List.mem_range.mpr (by omega),
          List.mem_range.mpr (by omega)⟩⟩
    · simp only [Prod.mk.injEq]
      omega

theorem cellList_nodup (nI nJ nK : ℕ) : (cellList nI nJ nK).Nodup := by
  refine List.Nodup.map ?_ ?_
  · rintro ⟨a1, b1, c1⟩ ⟨a2, b2, c2⟩ h
    simp only [Prod.mk.injEq] at h ⊢
    omega
  · exact ((List.nodup_range _).product
      ((List.nodup_range _).product (List.nodup_range _)))

/-- Folding a loop whose body overwrites exactly the visited index, where the
written value depends on the state at that index: provided the iteration list
has no duplicates, the final value at an index is a single application of the
body if the index was visited and the initial value otherwise. -/
theorem foldl_update_eq {α : Type} (g : Cell → α → α) :
    ∀ (L : List Cell), L.Nodup → ∀ (w : Cell → α) (c : Cell),
      (L.foldl (fun w i => Function.update w i (g i (w i))) w) c =
        if c ∈ L then g c (w c) else w c := by
  intro L
  induction L with
  | nil => intro _ w c; simp
  | cons a L ih =>
    intro hnd w c
    have hndL := (List.nodup_cons.mp hnd).2
    have haL := (List.nodup_cons.mp hnd).1
    by_cases hc : c = a
    · subst hc
      simp only [List.foldl_cons, List.mem_cons, true_or, if_true]
      rw [ih hndL]
      simp [if_neg haL]
    · simp only [List.foldl_cons, List.mem_cons]
      rw [ih hndL]
      have h1 : Function.update w a (g a (w a)) c = w c :=
        Function.update_noteq hc _ _
      by_cases hm : c ∈ L
      · simp [hm, hc, h1]
      · simp [hm, hc, h1]

/-- Folding a guarded loop body equals folding the unguarded body over the
filtered iteration list. -/
theorem foldl_guard {α β : Type} (p : β → Prop) [DecidablePred p]
    (f : α → β → α) :
    ∀ (L : List β) (a : α),
      L.foldl (fun a b => if p b then f a b else a) a =
        (L.filter (fun b => decide (p b))).foldl f a := by
  intro L
  induction L with
  | nil => intro a; rfl
  | cons x L ih =>
    intro a
    by_cases hx : p x
    · rw [List.foldl_cons, if_pos hx, List.filter_cons, decide_eq_true hx,
        if_pos rfl, List.foldl_cons]
      exact ih _
    · rw [List.foldl_cons, if_neg hx, List.filter_cons,
        decide_eq_false hx, if_neg Bool.false_ne_true]
      exact ih _

end Aither

namespace Aither

/-! ## Hyperplane reordering (utility.cpp, HyperplaneReorder) -/

/-- Body of the pp-loop of HyperplaneReorder (utility.cpp): scan all cells
in (kk, jj, ii) loop order and push those whose coordinate sum equals pp. -/
def hyperplaneBlock (imax jmax kmax pp : ℕ) : List (ℕ × ℕ × ℕ) :=
  (List.range kmax).flatMap (fun kk =>
    (List.range jmax).flatMap (fun jj =>
      (List.range imax).filterMap (fun ii =>
        if ii + jj + kk = pp then some (ii, jj, kk) else none)))

/-- Translation of HyperplaneReorder (utility.cpp): for each hyperplane
index pp below numPlanes = imax + jmax + kmax - 2, emit the cells whose
coordinate sum equals pp, in (kk, jj, ii) scan order. -/
def HyperplaneReorder (imax jmax kmax : ℕ) : List (ℕ × ℕ × ℕ) :=
  (List.range (imax + jmax + kmax - 2)).flatMap (hyperplaneBlock imax jmax kmax)

/-- Coordinate sum of a cell, i.e. the hyperplane it belongs to. -/
def planeOf (c : ℕ × ℕ × ℕ) : ℕ := c.1 + c.2.1 + c.2.2

theorem mem_hyperplaneBlock (imax jmax kmax pp : ℕ) (c : ℕ × ℕ × ℕ) :
    c ∈ hyperplaneBlock imax jmax kmax pp ↔
      planeOf c = pp ∧ c.1 < imax ∧ c.2.1 < jmax ∧ c.2.2 < kmax := by
  obtain ⟨i, j, k⟩ := c
  simp only [hyperplaneBlock, List.mem_flatMap, List.mem_filterMap,
    List.mem_range, planeOf]
  constructor
  · rintro ⟨kk, hkk, jj, hjj, ii, hii, hif⟩
    split at hif
    · cases hif
      exact ⟨by omega, hii, hjj, hkk⟩
    · cases hif
  · rintro ⟨hsum, hi, hj, hk⟩
    refine ⟨k, hk, j, hj, i, hi, ?_⟩
    rw [if_pos (by omega)]

theorem mem_hyperplaneReorder (imax jmax kmax : ℕ) (c : ℕ × ℕ × ℕ) :
    c ∈ HyperplaneReorder imax jmax kmax ↔
      c.1 < imax ∧ c.2.1 < jmax ∧ c.2.2 < kmax := by
  obtain ⟨i, j, k⟩ := c
  dsimp only
  simp only [HyperplaneReorder, List.mem_flatMap, List.mem_range]
  constructor
  · rintro ⟨pp, _, hblock⟩
    have := ((mem_hyperplaneBlock imax jmax kmax pp (i, j, k)).mp hblock).2
    dsimp only at this
    exact this
  · rintro ⟨hi, hj, hk⟩
    refine ⟨i + j + k, by omega,
      (mem_hyperplaneBlock imax jmax kmax _ (i, j, k)).mpr ⟨rfl, hi, hj, hk⟩⟩

/-- Nodup of a flatMap whose blocks are pairwise disjoint. -/
theorem nodup_flatMap_of {α β : Type} (l : List α) (g : α → List β)
    (hl : l.Nodup) (hnd : ∀ a ∈ l, (g a).Nodup)
    (hdisj : ∀ a₁ ∈ l, ∀ a₂ ∈ l, a₁ ≠ a₂ → ∀ b, b ∈ g a₁ → b ∉ g a₂) :
    (l.flatMap g).Nodup := by
  induction l with
  | nil => simp
  | cons x l ih =>
    rw [List.flatMap_cons, List.nodup_append]
    obtain ⟨hx, hl2⟩ := List.nodup_cons.mp hl
    refine ⟨hnd x (by simp), ?_, ?_⟩
    · exact ih hl2 (fun a ha => hnd a (by simp [ha]))
        (fun a₁ h₁ a₂ h₂ hne => hdisj a₁ (by simp [h₁]) a₂ (by simp [h₂]) hne)
    · intro b hb hbl
      obtain ⟨a, ha, hba⟩ := List.mem_flatMap.mp hbl
      have hxa : x ≠ a := fun h => hx (h ▸ ha)
      exact hdisj x (by simp) a (by simp [ha]) hxa b hb hba

theorem hyperplaneBlock_nodup (imax jmax kmax pp : ℕ) :
    (hyperplaneBlock imax jmax kmax pp).Nodup := by
  refine nodup_flatMap_of _ _ (List.nodup_range _) (fun kk _ => ?_)
    (fun k₁ _ k₂ _ hne b hb₁ hb₂ => ?_)
  · refine nodup_flatMap_of _ _ (List.nodup_range _) (fun jj _ => ?_)
      (fun j₁ _ j₂ _ hne b hb₁ hb₂ => ?_)
    · refine List.Nodup.filterMap ?_ (List.nodup_range _)
      intro i₁ i₂ b h₁ h₂
      split at h₁
      · split at h₂
        · cases h₁; cases h₂; rfl
        · cases h₂
      · cases h₁
    · obtain ⟨i₁, _, h₁⟩ := List.mem_filterMap.mp hb₁
      obtain ⟨i₂, _, h₂⟩ := List.mem_filterMap.mp hb₂
      split at h₁
      · split at h₂
        · cases h₁; cases h₂; exact hne rfl
        · cases h₂
      · cases h₁
  · simp only [List.mem_flatMap, List.mem_filterMap] at hb₁ hb₂
    obtain ⟨j₁, _, i₁, _, h₁⟩ := hb₁
    obtain ⟨j₂, _, i₂, _, h₂⟩ := hb₂
    split at h₁
    · split at h₂
      · cases h₁; cases h₂; exact hne rfl
      · cases h₂
    · cases h₁

theorem hyperplaneReorder_nodup (imax jmax kmax : ℕ) :
    (HyperplaneReorder imax jmax kmax).Nodup := by
  refine nodup_flatMap_of _ _ (List.nodup_range _)
    (fun pp _ => hyperplaneBlock_nodup imax jmax kmax pp)
    (fun p₁ _ p₂ _ hne b hb₁ hb₂ => ?_)
  have h₁ := ((mem_hyperplaneBlock imax jmax kmax p₁ b).mp hb₁).1
  have h₂ := ((mem_hyperplaneBlock imax jmax kmax p₂ b).mp hb₂).1
  exact hne (h₁ ▸ h₂ ▸ rfl)

/-- A list all of whose elements share one key is pairwise key-monotone. -/
theorem pairwise_of_const_key (pp : ℕ) :
    ∀ (t : List (ℕ × ℕ × ℕ)), (∀ b ∈ t, planeOf b = pp) →
      t.Pairwise (fun x y => planeOf x ≤ planeOf y) := by
  intro t
  induction t with
  | nil => intro _; simp
  | cons b t iht =>
    intro hconst
    rw [List.pairwise_cons]
    refine ⟨fun b2 hb2 => ?_, iht (fun b2 hb2 => hconst b2 (by simp [hb2]))⟩
    rw [hconst b (by simp), hconst b2 (by simp [hb2])]

/-- Elements of a list in which every block has a constant key are pairwise
key-monotone when the keys of the blocks appear in increasing order. -/
theorem pairwise_key_flatMap (l : List ℕ) (g : ℕ → List (ℕ × ℕ × ℕ))
    (hkey : ∀ pp, ∀ b ∈ g pp, planeOf b = pp) (hl : l.Pairwise (· < ·)) :
    (l.flatMap g).Pairwise (fun x y => planeOf x ≤ planeOf y) := by
  induction l with
  | nil => simp
  | cons x l ih =>
    rw [List.flatMap_cons, List.pairwise_append]
    obtain ⟨hx, hl2⟩ := List.pairwise_cons.mp hl
    refine ⟨pairwise_of_const_key x (g x) (hkey x), ih hl2, ?_⟩
    intro a ha b hb
    obtain ⟨p2, hp2, hbp⟩ := List.mem_flatMap.mp hb
    rw [hkey x a ha, hkey p2 b hbp]
    exact le_of_lt (hx p2 hp2)

theorem hyperplaneReorder_pairwise (imax jmax kmax : ℕ) :
    (HyperplaneReorder imax jmax kmax).Pairwise
      (fun x y => planeOf x ≤ planeOf y) :=
  pairwise_key_flatMap _ _
    (fun pp b hb => ((mem_hyperplaneBlock imax jmax kmax pp b).mp hb).1)
    (List.pairwise_lt_range _)

/-- In a list sorted by a key, an occurrence of a strictly smaller key sits
at a strictly earlier position. -/
theorem get_lt_of_key_lt (L : List (ℕ × ℕ × ℕ))
    (hp : L.Pairwise (fun x y => planeOf x ≤ planeOf y))
    (m n : Fin L.length) (hk : planeOf (L.get n) < planeOf (L.get m)) :
    (n : ℕ) < (m : ℕ) := by
  rcases lt_trichotomy (n : ℕ) (m : ℕ) with h | h | h
  · exact h
  · exfalso
    have : L.get n = L.get m := by
      congr 1
      exact Fin.ext h
    exact absurd (this ▸ hk) (lt_irrefl _)
  · exfalso
    have := (List.pairwise_iff_get.mp hp) m n (by exact h)
    exact absurd (lt_of_lt_of_le hk this) (lt_irrefl _)

/-- C5: for every positive (nI, nJ, nK), HyperplaneReorder returns an
ordering that visits every cell of the nI x nJ x nK grid exactly once, and
for every cell c at hyperplane p = i + j + k, each of its three lower
neighbors that is physical lies at a hyperplane below p and therefore
appears earlier in the ordering. -/
theorem HyperplaneReorder_visits_once_and_orders (nI nJ nK : ℕ)
    (hI : 0 < nI) (hJ : 0 < nJ) (hK : 0 < nK) :
    (HyperplaneReorder nI nJ nK).Nodup ∧
    (∀ c : ℕ × ℕ × ℕ, c ∈ HyperplaneReorder nI nJ nK ↔
      c.1 < nI ∧ c.2.1 < nJ ∧ c.2.2 < nK) ∧
    (∀ (m n : Fin (HyperplaneReorder nI nJ nK).length) (c d : ℕ × ℕ × ℕ),
      (HyperplaneReorder nI nJ nK).get m = c →
      (HyperplaneReorder nI nJ nK).get n = d →
      (c = (d.1 + 1, d.2.1, d.2.2) ∨ c = (d.1, d.2.1 + 1, d.2.2) ∨
        c = (d.1, d.2.1, d.2.2 + 1)) →
      planeOf d < planeOf c ∧ (n : ℕ) < (m : ℕ)) := by
  refine ⟨hyperplaneReorder_nodup nI nJ nK,
    mem_hyperplaneReorder nI nJ nK, ?_⟩
  intro m n c d hm hn hnb
  have hkey : planeOf d < planeOf c := by
    obtain ⟨di, dj, dk⟩ := d
    rcases hnb with h | h | h <;> (subst h; dsimp only [planeOf]; omega)
  refine ⟨hkey, ?_⟩
  refine get_lt_of_key_lt _ (hyperplaneReorder_pairwise nI nJ nK) m n ?_
  rw [hm, hn]
  exact hkey

/-- Witness for C5 at the concrete grid (2, 2, 2). -/
theorem HyperplaneReorder_visits_once_and_orders_witness :
    0 < 2 ∧
    ((HyperplaneReorder 2 2 2).Nodup ∧
      (∀ c : ℕ × ℕ × ℕ, c ∈ HyperplaneReorder 2 2 2 ↔
        c.1 < 2 ∧ c.2.1 < 2 ∧ c.2.2 < 2) ∧
      (∀ (m n : Fin (HyperplaneReorder 2 2 2).length) (c d : ℕ × ℕ × ℕ),
        (HyperplaneReorder 2 2 2).get m = c →
        (HyperplaneReorder 2 2 2).get n = d →
        (c = (d.1 + 1, d.2.1, d.2.2) ∨ c = (d.1, d.2.1 + 1, d.2.2) ∨
          c = (d.1, d.2.1, d.2.2 + 1)) →
        planeOf d < planeOf c ∧ (n : ℕ) < (m : ℕ))) :=
  ⟨by decide, HyperplaneReorder_visits_once_and_orders 2 2 2 (by decide)
    (by decide) (by decide)⟩

end Aither

namespace Aither

/-! ## L-infinity residual reduction (parallel.cpp, MaxLinf; resid class) -/

/-- Residual record: an L-infinity magnitude and a five-integer locator
(block, i, j, k, equation index), mirroring the resid class. -/
structure Resid where
  linf : ℚ
  blk : ℤ
  i : ℤ
  j : ℤ
  k : ℤ
  eqn : ℤ
deriving DecidableEq

/-- Body of the loop of MaxLinf (parallel.cpp): if the linf of the incoming
record is at least the linf of the accumulator record, the whole incoming
record becomes the result, otherwise the accumulator is kept. -/
def MaxLinfOp (rin rinout : Resid) : Resid :=
  if rinout.linf ≤ rin.linf then rin else rinout

/-- Translation of MaxLinf (parallel.cpp): elementwise application of the
reduction body to two arrays of residual records of length len. -/
def MaxLinf (rin rinout : List Resid) : List Resid :=
  List.zipWith MaxLinfOp rin rinout

/-- C6: for every pair of residual records, the MaxLinf reduction operation
produces a record whose L-infinity magnitude is the maximum of the two
inputs and that is identical, locator included, to one of the two inputs;
hence a global reduction by this operation yields the maximum over all
workers and carries one of the contributing workers' locators. -/
theorem MaxLinf_preserves_locator_and_max :
    (∀ a b : Resid, (MaxLinfOp a b).linf = max a.linf b.linf ∧
      (MaxLinfOp a b = a ∨ MaxLinfOp a b = b)) ∧
    (∀ (rin rinout : List Resid) (idx : Fin (MaxLinf rin rinout).length)
      (ha : (idx : ℕ) < rin.length) (hb : (idx : ℕ) < rinout.length),
      (MaxLinf rin rinout).get idx =
        MaxLinfOp (rin.get ⟨idx, ha⟩) (rinout.get ⟨idx, hb⟩)) ∧
    (∀ (r0 : Resid) (rs : List Resid),
      (rs.foldl (fun acc r => MaxLinfOp r acc) r0).linf =
        rs.foldl (fun mv r => max mv r.linf) r0.linf ∧
      rs.foldl (fun acc r => MaxLinfOp r acc) r0 ∈ r0 :: rs) := by
  refine ⟨?_, ?_, ?_⟩
  · intro a b
    unfold MaxLinfOp
    by_cases h : b.linf ≤ a.linf
    · rw [if_pos h]
      exact ⟨(max_eq_left h).symm, Or.inl rfl⟩
    · rw [if_neg h]
      exact ⟨(max_eq_right (le_of_not_le h)).symm, Or.inr rfl⟩
  · intro rin rinout idx ha hb
    simp [MaxLinf, List.get_eq_getElem, List.getElem_zipWith]
  · intro r0 rs
    induction rs generalizing r0 with
    | nil => exact ⟨rfl, by simp⟩
    | cons r rs ih =>
      obtain ⟨ih1, ih2⟩ := ih (MaxLinfOp r r0)
      constructor
      · rw [List.foldl_cons, ih1, List.foldl_cons]
        congr 1
        unfold MaxLinfOp
        by_cases h : r0.linf ≤ r.linf
        · rw [if_pos h]
          exact (max_eq_right h).symm
        · rw [if_neg h]
          exact (max_eq_left (le_of_not_le h)).symm
      · rw [List.foldl_cons]
        rcases List.mem_cons.mp ih2 with h | h
        · rw [h]
          unfold MaxLinfOp
          by_cases hc : r0.linf ≤ r.linf
          · rw [if_pos hc]
            exact List.mem_cons_of_mem _ (List.mem_cons_self _ _)
          · rw [if_neg hc]
            exact List.mem_cons_self _ _
        · exact List.mem_cons_of_mem _ (List.mem_cons_of_mem _ h)

end Aither

namespace Aither

/-! ## Manual decomposition (parallel.cpp, ManualDecomposition) -/

/-- Fields of procBlock used by the decomposition driver. -/
structure DecompBlock where
  rank : ℤ
  globalPos : ℤ
  numCells : ℤ
deriving DecidableEq, Inhabited

/-- Fields of the interblock record used by the decomposition driver; block
ids are indices into the grid vector. -/
structure DecompInterblock where
  rankFirst : ℤ
  rankSecond : ℤ
  blockFirst : ℕ
  blockSecond : ℕ
deriving DecidableEq, Inhabited

/-- SetRank of procBlock applied at loop index ii. -/
def setRankIdx (ii : ℕ) (b : DecompBlock) : DecompBlock :=
  { b with rank := (ii : ℤ) }

/-- SetGlobalPos of procBlock applied at loop index ii. -/
def setGlobalPosIdx (ii : ℕ) (b : DecompBlock) : DecompBlock :=
  { b with globalPos := (ii : ℤ) }

/-- Translation of ManualDecomposition (parallel.cpp): error out when the
number of blocks differs from the number of processors; otherwise return
the all-ones load-balance vector, assign each block rank ii and global
position ii, and copy the assigned ranks into each interblock connection.
The printed load statistics affect no returned data and are omitted. -/
def ManualDecomposition (grid : List DecompBlock) (numProc : ℕ)
    (connections : List DecompInterblock) :
    Except Unit (List ℕ × List DecompBlock × List DecompInterblock) :=
  if grid.length ≠ numProc then Except.error () else
  let loadBal := List.replicate numProc 1
  let grid1 := grid.mapIdx setRankIdx
  let grid2 := grid1.mapIdx setGlobalPosIdx
  let conns := connections.map (fun cn =>
    { cn with
      rankFirst := (grid2.getD cn.blockFirst default).rank,
      rankSecond := (grid2.getD cn.blockSecond default).rank })
  Except.ok (loadBal, grid2, conns)

/-- The block at index i after both index-assignment passes. -/
theorem manualDecomp_get (grid : List DecompBlock) (i : ℕ)
    (h : i < grid.length)
    (h2 : i < ((grid.mapIdx setRankIdx).mapIdx setGlobalPosIdx).length) :
    ((grid.mapIdx setRankIdx).mapIdx setGlobalPosIdx).get ⟨i, h2⟩ =
      { grid.get ⟨i, h⟩ with rank := (i : ℤ), globalPos := (i : ℤ) } := by
  rw [List.get_mapIdx _ _ i (by simpa using h), List.get_mapIdx _ _ i h]
  rfl

/-- C8: ManualDecomposition aborts exactly when the block count differs
from the processor count; otherwise the load-balance vector is all ones of
length numProc, block ii receives rank ii and global position ii, and every
interblock connection receives the ranks assigned to its two blocks. -/
theorem ManualDecomposition_spec (grid : List DecompBlock) (numProc : ℕ)
    (connections : List DecompInterblock) :
    (ManualDecomposition grid numProc connections = Except.error () ↔
      grid.length ≠ numProc) ∧
    (grid.length = numProc →
      ∃ lb g2 c2, ManualDecomposition grid numProc connections =
          Except.ok (lb, g2, c2) ∧
        lb = List.replicate numProc 1 ∧
        g2.length = grid.length ∧
        (∀ ii : Fin g2.length, (g2.get ii).rank = ((ii : ℕ) : ℤ) ∧
          (g2.get ii).globalPos = ((ii : ℕ) : ℤ)) ∧
        c2.length = connections.length ∧
        (∀ kx : Fin c2.length, ∀ hk : (kx : ℕ) < connections.length,
          ((connections.get ⟨kx, hk⟩).blockFirst < grid.length →
            (c2.get kx).rankFirst =
              (((connections.get ⟨kx, hk⟩).blockFirst : ℕ) : ℤ)) ∧
          ((connections.get ⟨kx, hk⟩).blockSecond < grid.length →
            (c2.get kx).rankSecond =
              (((connections.get ⟨kx, hk⟩).blockSecond : ℕ) : ℤ)) ∧
          (c2.get kx).blockFirst = (connections.get ⟨kx, hk⟩).blockFirst ∧
          (c2.get kx).blockSecond = (connections.get ⟨kx, hk⟩).blockSecond)) := by
  constructor
  · constructor
    · intro h hlen
      rw [ManualDecomposition, if_neg (by omega : ¬ grid.length ≠ numProc)] at h
      exact Except.noConfusion h
    · intro hlen
      rw [ManualDecomposition, if_pos hlen]
  · intro hlen
    have hne : ¬ grid.length ≠ numProc := by omega
    have hrank : ∀ bi : ℕ, bi < grid.length →
        (((grid.mapIdx setRankIdx).mapIdx setGlobalPosIdx).getD bi
          default).rank = (bi : ℤ) := by
      intro bi hbi
      have h2 : bi <
          ((grid.mapIdx setRankIdx).mapIdx setGlobalPosIdx).length := by
        simpa using hbi
      rw [List.getD_eq_get _ _ h2, manualDecomp_get grid bi hbi h2]
    refine ⟨_, _, _, by rw [ManualDecomposition, if_neg hne], rfl, ?_, ?_, ?_, ?_⟩
    · simp
    · intro ii
      have hii : (ii : ℕ) < grid.length := by
        have := ii.isLt
        simpa using this
      rw [manualDecomp_get grid (ii : ℕ) hii (by simpa using hii)]
      exact ⟨rfl, rfl⟩
    · simp
    · intro kx hk
      refine ⟨?_, ?_, ?_, ?_⟩
      · intro hb
        simp only [List.get_eq_getElem, List.getElem_map]
        exact hrank _ hb
      · intro hb
        simp only [List.get_eq_getElem, List.getElem_map]
        exact hrank _ hb
      · simp [List.get_eq_getElem, List.getElem_map]
      · simp [List.get_eq_getElem, List.getElem_map]

/-- Witness for C8: three blocks on three processors with one connection. -/
theorem ManualDecomposition_spec_witness :
    ([⟨0, 0, 8⟩, ⟨0, 0, 8⟩, ⟨0, 0, 8⟩] : List DecompBlock).length = 3 ∧
    (∃ lb g2 c2,
      ManualDecomposition [⟨0, 0, 8⟩, ⟨0, 0, 8⟩, ⟨0, 0, 8⟩] 3
          [⟨0, 0, 0, 2⟩] = Except.ok (lb, g2, c2) ∧
        lb = List.replicate 3 1 ∧
        g2.length = ([⟨0, 0, 8⟩, ⟨0, 0, 8⟩, ⟨0, 0, 8⟩] :
          List DecompBlock).length ∧
        (∀ ii : Fin g2.length, (g2.get ii).rank = ((ii : ℕ) : ℤ) ∧
          (g2.get ii).globalPos = ((ii : ℕ) : ℤ)) ∧
        c2.length = ([⟨0, 0, 0, 2⟩] : List DecompInterblock).length ∧
        (∀ kx : Fin c2.length,
          ∀ hk : (kx : ℕ) < ([⟨0, 0, 0, 2⟩] : List DecompInterblock).length,
          ((([⟨0, 0, 0, 2⟩] : List DecompInterblock).get
              ⟨kx, hk⟩).blockFirst < 3 →
            (c2.get kx).rankFirst =
              (((([⟨0, 0, 0, 2⟩] : List DecompInterblock).get
                ⟨kx, hk⟩).blockFirst : ℕ) : ℤ)) ∧
          ((([⟨0, 0, 0, 2⟩] : List DecompInterblock).get
              ⟨kx, hk⟩).blockSecond < 3 →
            (c2.get kx).rankSecond =
              (((([⟨0, 0, 0, 2⟩] : List DecompInterblock).get
                ⟨kx, hk⟩).blockSecond : ℕ) : ℤ)) ∧
          (c2.get kx).blockFirst =
            (([⟨0, 0, 0, 2⟩] : List DecompInterblock).get ⟨kx, hk⟩).blockFirst ∧
          (c2.get kx).blockSecond =
            (([⟨0, 0, 0, 2⟩] : List DecompInterblock).get
              ⟨kx, hk⟩).blockSecond)) :=
  ⟨rfl, (ManualDecomposition_spec [⟨0, 0, 8⟩, ⟨0, 0, 8⟩, ⟨0, 0, 8⟩] 3
    [⟨0, 0, 0, 2⟩]).2 rfl⟩

end Aither

namespace Aither

/-! ## Block data, time step, and wave-speed accumulation (procBlock.cpp) -/

/-- Fields of procBlock used by the time-step and update kernels.  The
state, volume and centroid arrays are padded (indexed with ghost offsets);
residual, dt, avgWaveSpeed and wallDist hold interior indices only. -/
structure FlowBlock where
  numI : ℕ
  numJ : ℕ
  numK : ℕ
  numGhosts : ℕ
  state : Cell → PrimVars
  vol : Cell → ℚ
  residual : Cell → GenArray
  dt : Cell → ℚ
  avgWaveSpeed : Cell → ℚ
  wallDist : Cell → ℚ
  parBlock : ℤ

/-- Ghost-padded index of a physical cell index (the paired (p, g) loop
indices of procBlock.cpp keep g = p + numGhosts componentwise). -/
def ghost (numG : ℕ) (c : Cell) : Cell :=
  (c.1 + numG, c.2.1 + numG, c.2.2 + numG)

/-- Interior-index predicate for a block. -/
def inBlock (b : FlowBlock) (c : Cell) : Prop :=
  0 ≤ c.1 ∧ c.1 < (b.numI : ℤ) ∧ 0 ≤ c.2.1 ∧ c.2.1 < (b.numJ : ℤ) ∧
    0 ≤ c.2.2 ∧ c.2.2 < (b.numK : ℤ)

/-- Input options consumed by the embedded kernels. -/
structure Input where
  timeIntegration : String
  dt : ℚ
  cfl : ℚ
  lRef : ℚ

/-- Translation of procBlock::CalcCellDt (procBlock.cpp): the local time
step of one cell is cfl times cell volume over accumulated wave speed. -/
def CalcCellDt (b : FlowBlock) (c : Cell) (cfl : ℚ) : FlowBlock :=
  { b with dt := Function.update b.dt c
                   (cfl * (b.vol (ghost b.numGhosts c) / b.avgWaveSpeed c)) }

/-- Translation of procBlock::CalcBlockTimeStep (procBlock.cpp): loop over
all physical cells; with a positive user dt write the non-dimensionalized
global step, otherwise with a positive cfl call CalcCellDt, otherwise
print an error and exit (modelled as the error of an Except). -/
def CalcBlockTimeStep (inputVars : Input) (aRef : ℚ) (b : FlowBlock) :
    Except Unit FlowBlock :=
  (cellList b.numI b.numJ b.numK).foldlM (fun b c =>
    if 0 < inputVars.dt then
      Except.ok { b with dt := Function.update b.dt c
                           (inputVars.dt * aRef / inputVars.lRef) }
    else if 0 < inputVars.cfl then
      Except.ok (CalcCellDt b c inputVars.cfl)
    else Except.error ()) b

/-- Translation of procBlock::ResetResidWS (procBlock.cpp): zero the
residual and the accumulated wave speed of every physical cell. -/
def ResetResidWS (b : FlowBlock) : FlowBlock :=
  (cellList b.numI b.numJ b.numK).foldl (fun b c =>
    { b with
      residual := Function.update b.residual c GenArray.zero,
      avgWaveSpeed := Function.update b.avgWaveSpeed c 0 }) b

/-- Coefficient for the viscous spectral radii (vCoeff in CalcViscFluxI,
procBlock.cpp). -/
def vCoeff : ℚ := 1

/-- Wave-speed accumulation of procBlock::CalcInvFluxI (procBlock.cpp):
the face loop runs the physical i-faces (physical face index 0..numI); at
faces with index below numI (the guard on the upper cell) the inviscid
i-spectral radius of the upper cell is added to that cell.  lamI stands
for the CellSpectralRadius value of the cell (inviscidFlux.cpp is not
under src/); the residual writes of the same loop touch a different array
and are not read by the time-step computation. -/
def CalcInvFluxIWaveSpeed (lamI : Cell → ℚ) (b : FlowBlock) : FlowBlock :=
  { b with avgWaveSpeed :=
      (cellList (b.numI + 1) b.numJ b.numK).foldl (fun w f =>
        if f.1 < (b.numI : ℤ) then Function.update w f (w f + lamI f)
        else w) b.avgWaveSpeed }

/-- Wave-speed accumulation of procBlock::CalcInvFluxJ (procBlock.cpp). -/
def CalcInvFluxJWaveSpeed (lamJ : Cell → ℚ) (b : FlowBlock) : FlowBlock :=
  { b with avgWaveSpeed :=
      (cellList b.numI (b.numJ + 1) b.numK).foldl (fun w f =>
        if f.2.1 < (b.numJ : ℤ) then Function.update w f (w f + lamJ f)
        else w) b.avgWaveSpeed }

/-- Wave-speed accumulation of procBlock::CalcInvFluxK (procBlock.cpp). -/
def CalcInvFluxKWaveSpeed (lamK : Cell → ℚ) (b : FlowBlock) : FlowBlock :=
  { b with avgWaveSpeed :=
      (cellList b.numI b.numJ (b.numK + 1)).foldl (fun w f =>
        if f.2.2 < (b.numK : ℤ) then Function.update w f (w f + lamK f)
        else w) b.avgWaveSpeed }

/-- Wave-speed accumulation of procBlock::CalcViscFluxI (procBlock.cpp):
as the inviscid i-sweep, adding vCoeff times the viscous spectral radius
ViscCellSpectralRadius (viscousFlux.cpp is not under src/). -/
def CalcViscFluxIWaveSpeed (lamVI : Cell → ℚ) (b : FlowBlock) : FlowBlock :=
  { b with avgWaveSpeed :=
      (cellList (b.numI + 1) b.numJ b.numK).foldl (fun w f =>
        if f.1 < (b.numI : ℤ) then
          Function.update w f (w f + vCoeff * lamVI f)
        else w) b.avgWaveSpeed }

/-- Wave-speed accumulation of procBlock::CalcViscFluxJ (procBlock.cpp). -/
def CalcViscFluxJWaveSpeed (lamVJ : Cell → ℚ) (b : FlowBlock) : FlowBlock :=
  { b with avgWaveSpeed :=
      (cellList b.numI (b.numJ + 1) b.numK).foldl (fun w f =>
        if f.2.1 < (b.numJ : ℤ) then
          Function.update w f (w f + vCoeff * lamVJ f)
        else w) b.avgWaveSpeed }

/-- Wave-speed accumulation of procBlock::CalcViscFluxK (procBlock.cpp). -/
def CalcViscFluxKWaveSpeed (lamVK : Cell → ℚ) (b : FlowBlock) : FlowBlock :=
  { b with avgWaveSpeed :=
      (cellList b.numI b.numJ (b.numK + 1)).foldl (fun w f =>
        if f.2.2 < (b.numK : ℤ) then
          Function.update w f (w f + vCoeff * lamVK f)
        else w) b.avgWaveSpeed }

/-- Modelled from the spec: the per-iteration residual-assembly driver
(CalcResidualNoSource, utility.cpp, whose body is not under src/) runs the
inviscid flux assembly in I, J, K order and, for viscous equation sets
only, the viscous flux assembly in I, J, K order; this definition chains
the in-src wave-speed accumulations in that order. -/
def AssembleWaveSpeed (visc : Bool)
    (lamI lamJ lamK lamVI lamVJ lamVK : Cell → ℚ) (b : FlowBlock) :
    FlowBlock :=
  let b1 := CalcInvFluxKWaveSpeed lamK
    (CalcInvFluxJWaveSpeed lamJ (CalcInvFluxIWaveSpeed lamI b))
  if visc then
    CalcViscFluxKWaveSpeed lamVK
      (CalcViscFluxJWaveSpeed lamVJ (CalcViscFluxIWaveSpeed lamVI b1))
  else b1

end Aither

namespace Aither

/-- Closed form of the ResetResidWS fold: only the residual and wave-speed
arrays change, each by a fold of pointwise zero-writes. -/
theorem foldl_resetStep_eq : ∀ (L : List Cell) (b : FlowBlock),
    (L.foldl (fun b c =>
      { b with
        residual := Function.update b.residual c GenArray.zero,
        avgWaveSpeed := Function.update b.avgWaveSpeed c 0 }) b) =
    { b with
      residual := L.foldl (fun r c =>
        Function.update r c GenArray.zero) b.residual,
      avgWaveSpeed := L.foldl (fun w c =>
        Function.update w c 0) b.avgWaveSpeed } := by
  intro L
  induction L with
  | nil => intro b; rfl
  | cons a L ih =>
    intro b
    simp only [List.foldl_cons]
    exact ih _

theorem ResetResidWS_eq (b : FlowBlock) :
    ResetResidWS b =
    { b with
      residual := (cellList b.numI b.numJ b.numK).foldl (fun r c =>
        Function.update r c GenArray.zero) b.residual,
      avgWaveSpeed := (cellList b.numI b.numJ b.numK).foldl (fun w c =>
        Function.update w c 0) b.avgWaveSpeed } :=
  foldl_resetStep_eq _ b

/-- Wave speed of an interior cell right after ResetResidWS. -/
theorem ResetResidWS_ws (b : FlowBlock) (c : Cell) (hc : inBlock b c) :
    (ResetResidWS b).avgWaveSpeed c = 0 := by
  rw [ResetResidWS_eq]
  have key := foldl_update_eq (fun i (a : ℚ) => 0)
    (cellList b.numI b.numJ b.numK) (cellList_nodup _ _ _) b.avgWaveSpeed c
  rw [if_pos ((mem_cellList _ _ _ c).mpr hc)] at key
  exact key

/-- Wave-speed effect of the inviscid i-sweep on an interior cell. -/
theorem CalcInvFluxIWaveSpeed_ws (lamI : Cell → ℚ) (b : FlowBlock) (c : Cell)
    (hc : inBlock b c) :
    (CalcInvFluxIWaveSpeed lamI b).avgWaveSpeed c =
      b.avgWaveSpeed c + lamI c := by
  show (cellList (b.numI + 1) b.numJ b.numK).foldl (fun w f =>
    if f.1 < (b.numI : ℤ) then Function.update w f (w f + lamI f) else w)
      b.avgWaveSpeed c = _
  rw [foldl_guard (fun f : Cell => f.1 < (b.numI : ℤ))
    (fun w f => Function.update w f (w f + lamI f))]
  have hnd := (cellList_nodup (b.numI + 1) b.numJ b.numK).filter
    (fun f => decide (f.1 < (b.numI : ℤ)))
  have hmem : c ∈ (cellList (b.numI + 1) b.numJ b.numK).filter
      (fun f => decide (f.1 < (b.numI : ℤ))) := by
    refine List.mem_filter.mpr ⟨(mem_cellList _ _ _ c).mpr ?_, ?_⟩
    · obtain ⟨h1, h2, h3, h4, h5, h6⟩ := hc
      exact ⟨h1, by push_cast; omega, h3, h4, h5, h6⟩
    · exact decide_eq_true hc.2.1
  have key := foldl_update_eq (fun i (a : ℚ) => a + lamI i) _ hnd
    b.avgWaveSpeed c
  rw [if_pos hmem] at key
  exact key

/-- Wave-speed effect of the inviscid j-sweep on an interior cell. -/
theorem CalcInvFluxJWaveSpeed_ws (lamJ : Cell → ℚ) (b : FlowBlock) (c : Cell)
    (hc : inBlock b c) :
    (CalcInvFluxJWaveSpeed lamJ b).avgWaveSpeed c =
      b.avgWaveSpeed c + lamJ c := by
  show (cellList b.numI (b.numJ + 1) b.numK).foldl (fun w f =>
    if f.2.1 < (b.numJ : ℤ) then Function.update w f (w f + lamJ f) else w)
      b.avgWaveSpeed c = _
  rw [foldl_guard (fun f : Cell => f.2.1 < (b.numJ : ℤ))
    (fun w f => Function.update w f (w f + lamJ f))]
  have hnd := (cellList_nodup b.numI (b.numJ + 1) b.numK).filter
    (fun f => decide (f.2.1 < (b.numJ : ℤ)))
  have hmem : c ∈ (cellList b.numI (b.numJ + 1) b.numK).filter
      (fun f => decide (f.2.1 < (b.numJ : ℤ))) := by
    refine List.mem_filter.mpr ⟨(mem_cellList _ _ _ c).mpr ?_, ?_⟩
    · obtain ⟨h1, h2, h3, h4, h5, h6⟩ := hc
      exact ⟨h1, h2, h3, by push_cast; omega, h5, h6⟩
    · exact decide_eq_true hc.2.2.2.1
  have key := foldl_update_eq (fun i (a : ℚ) => a + lamJ i) _ hnd
    b.avgWaveSpeed c
  rw [if_pos hmem] at key
  exact key

/-- Wave-speed effect of the inviscid k-sweep on an interior cell. -/
theorem CalcInvFluxKWaveSpeed_ws (lamK : Cell → ℚ) (b : FlowBlock) (c : Cell)
    (hc : inBlock b c) :
    (CalcInvFluxKWaveSpeed lamK b).avgWaveSpeed c =
      b.avgWaveSpeed c + lamK c := by
  show (cellList b.numI b.numJ (b.numK + 1)).foldl (fun w f =>
    if f.2.2 < (b.numK : ℤ) then Function.update w f (w f + lamK f) else w)
      b.avgWaveSpeed c = _
  rw [foldl_guard (fun f : Cell => f.2.2 < (b.numK : ℤ))
    (fun w f => Function.update w f (w f + lamK f))]
  have hnd := (cellList_nodup b.numI b.numJ (b.numK + 1)).filter
    (fun f => decide (f.2.2 < (b.numK : ℤ)))
  have hmem : c ∈ (cellList b.numI b.numJ (b.numK + 1)).filter
      (fun f => decide (f.2.2 < (b.numK : ℤ))) := by
    refine List.mem_filter.mpr ⟨(mem_cellList _ _ _ c).mpr ?_, ?_⟩
    · obtain ⟨h1, h2, h3, h4, h5, h6⟩ := hc
      exact ⟨h1, h2, h3, h4, h5, by push_cast; omega⟩
    · exact decide_eq_true hc.2.2.2.2.2
  have key := foldl_update_eq (fun i (a : ℚ) => a + lamK i) _ hnd
    b.avgWaveSpeed c
  rw [if_pos hmem] at key
  exact key

/-- Wave-speed effect of the viscous i-sweep on an interior cell. -/
theorem CalcViscFluxIWaveSpeed_ws (lamVI : Cell → ℚ) (b : FlowBlock) (c : Cell)
    (hc : inBlock b c) :
    (CalcViscFluxIWaveSpeed lamVI b).avgWaveSpeed c =
      b.avgWaveSpeed c + vCoeff * lamVI c := by
  show (cellList (b.numI + 1) b.numJ b.numK).foldl (fun w f =>
    if f.1 < (b.numI : ℤ) then
      Function.update w f (w f + vCoeff * lamVI f) else w)
      b.avgWaveSpeed c = _
  rw [foldl_guard (fun f : Cell => f.1 < (b.numI : ℤ))
    (fun w f => Function.update w f (w f + vCoeff * lamVI f))]
  have hnd := (cellList_nodup (b.numI + 1) b.numJ b.numK).filter
    (fun f => decide (f.1 < (b.numI : ℤ)))
  have hmem : c ∈ (cellList (b.numI + 1) b.numJ b.numK).filter
      (fun f => decide (f.1 < (b.numI : ℤ))) := by
    refine List.mem_filter.mpr ⟨(mem_cellList _ _ _ c).mpr ?_, ?_⟩
    · obtain ⟨h1, h2, h3, h4, h5, h6⟩ := hc
      exact ⟨h1, by push_cast; omega, h3, h4, h5, h6⟩
    · exact decide_eq_true hc.2.1
  have key := foldl_update_eq (fun i (a : ℚ) => a + vCoeff * lamVI i) _ hnd
    b.avgWaveSpeed c
  rw [if_pos hmem] at key
  exact key

/-- Wave-speed effect of the viscous j-sweep on an interior cell. -/
theorem CalcViscFluxJWaveSpeed_ws (lamVJ : Cell → ℚ) (b : FlowBlock) (c : Cell)
    (hc : inBlock b c) :
    (CalcViscFluxJWaveSpeed lamVJ b).avgWaveSpeed c =
      b.avgWaveSpeed c + vCoeff * lamVJ c := by
  show (cellList b.numI (b.numJ + 1) b.numK).foldl (fun w f =>
    if f.2.1 < (b.numJ : ℤ) then
      Function.update w f (w f + vCoeff * lamVJ f) else w)
      b.avgWaveSpeed c = _
  rw [foldl_guard (fun f : Cell => f.2.1 < (b.numJ : ℤ))
    (fun w f => Function.update w f (w f + vCoeff * lamVJ f))]
  have hnd := (cellList_nodup b.numI (b.numJ + 1) b.numK).filter
    (fun f => decide (f.2.1 < (b.numJ : ℤ)))
  have hmem : c ∈ (cellList b.numI (b.numJ + 1) b.numK).filter
      (fun f => decide (f.2.1 < (b.numJ : ℤ))) := by
    refine List.mem_filter.mpr ⟨(mem_cellList _ _ _ c).mpr ?_, ?_⟩
    · obtain ⟨h1, h2, h3, h4, h5, h6⟩ := hc
      exact ⟨h1, h2, h3, by push_cast; omega, h5, h6⟩
    · exact decide_eq_true hc.2.2.2.1
  have key := foldl_update_eq (fun i (a : ℚ) => a + vCoeff * lamVJ i) _ hnd
    b.avgWaveSpeed c
  rw [if_pos hmem] at key
  exact key

/-- Wave-speed effect of the viscous k-sweep on an interior cell. -/
theorem CalcViscFluxKWaveSpeed_ws (lamVK : Cell → ℚ) (b : FlowBlock) (c : Cell)
    (hc : inBlock b c) :
    (CalcViscFluxKWaveSpeed lamVK b).avgWaveSpeed c =
      b.avgWaveSpeed c + vCoeff * lamVK c := by
  show (cellList b.numI b.numJ (b.numK + 1)).foldl (fun w f =>
    if f.2.2 < (b.numK : ℤ) then
      Function.update w f (w f + vCoeff * lamVK f) else w)
      b.avgWaveSpeed c = _
  rw [foldl_guard (fun f : Cell => f.2.2 < (b.numK : ℤ))
    (fun w f => Function.update w f (w f + vCoeff * lamVK f))]
  have hnd := (cellList_nodup b.numI b.numJ (b.numK + 1)).filter
    (fun f => decide (f.2.2 < (b.numK : ℤ)))
  have hmem : c ∈ (cellList b.numI b.numJ (b.numK + 1)).filter
      (fun f => decide (f.2.2 < (b.numK : ℤ))) := by
    refine List.mem_filter.mpr ⟨(mem_cellList _ _ _ c).mpr ?_, ?_⟩
    · obtain ⟨h1, h2, h3, h4, h5, h6⟩ := hc
      exact ⟨h1, h2, h3, h4, h5, by push_cast; omega⟩
    · exact decide_eq_true hc.2.2.2.2.2
  have key := foldl_update_eq (fun i (a : ℚ) => a + vCoeff * lamVK i) _ hnd
    b.avgWaveSpeed c
  rw [if_pos hmem] at key
  exact key

end Aither

namespace Aither

/-- With a positive user time step, CalcBlockTimeStep never errors and
reduces to the pure fold writing the uniform value. -/
theorem CalcBlockTimeStep_fixed_path (inputVars : Input) (aRef : ℚ)
    (hdt : 0 < inputVars.dt) :
    ∀ (L : List Cell) (b : FlowBlock),
      L.foldlM (fun b c =>
        if 0 < inputVars.dt then
          Except.ok { b with dt := Function.update b.dt c
                               (inputVars.dt * aRef / inputVars.lRef) }
        else if 0 < inputVars.cfl then
          Except.ok (CalcCellDt b c inputVars.cfl)
        else Except.error ()) b =
      Except.ok (L.foldl (fun b c =>
        { b with dt := Function.update b.dt c
                         (inputVars.dt * aRef / inputVars.lRef) }) b) := by
  intro L
  induction L with
  | nil => intro b; rfl
  | cons a L ih =>
    intro b
    rw [List.foldlM_cons, if_pos hdt, List.foldl_cons]
    exact ih _

/-- With no user time step but a positive cfl, CalcBlockTimeStep never
errors and reduces to the pure fold of CalcCellDt. -/
theorem CalcBlockTimeStep_cfl_path (inputVars : Input) (aRef : ℚ)
    (hdt : inputVars.dt ≤ 0) (hcfl : 0 < inputVars.cfl) :
    ∀ (L : List Cell) (b : FlowBlock),
      L.foldlM (fun b c =>
        if 0 < inputVars.dt then
          Except.ok { b with dt := Function.update b.dt c
                               (inputVars.dt * aRef / inputVars.lRef) }
        else if 0 < inputVars.cfl then
          Except.ok (CalcCellDt b c inputVars.cfl)
        else Except.error ()) b =
      Except.ok (L.foldl (fun b c => CalcCellDt b c inputVars.cfl) b) := by
  intro L
  induction L with
  | nil => intro b; rfl
  | cons a L ih =>
    intro b
    rw [List.foldlM_cons, if_neg (not_lt.mpr hdt), if_pos hcfl,
      List.foldl_cons]
    exact ih _

/-- Closed form of the fixed-time-step fold: only dt changes. -/
theorem foldl_fixedStep_eq (v : ℚ) : ∀ (L : List Cell) (b : FlowBlock),
    (L.foldl (fun b c =>
      { b with dt := Function.update b.dt c v }) b) =
    { b with dt := L.foldl (fun w c => Function.update w c v) b.dt } := by
  intro L
  induction L with
  | nil => intro b; rfl
  | cons a L ih =>
    intro b
    simp only [List.foldl_cons]
    exact ih _

/-- Closed form of the CalcCellDt fold: only dt changes, each cell getting
cfl times its volume over its accumulated wave speed. -/
theorem foldl_calcCellDt_eq (cfl : ℚ) : ∀ (L : List Cell) (b : FlowBlock),
    (L.foldl (fun b c => CalcCellDt b c cfl) b) =
    { b with dt := L.foldl (fun w c => Function.update w c
        (cfl * (b.vol (ghost b.numGhosts c) / b.avgWaveSpeed c))) b.dt } := by
  intro L
  induction L with
  | nil => intro b; rfl
  | cons a L ih =>
    intro b
    simp only [List.foldl_cons]
    exact ih _

/-- C10: if the resolved input specifies neither a positive fixed time step
nor a positive CFL, CalcBlockTimeStep hits the fatal-error exit on the
first interior cell and produces no block; when both a positive fixed time
step and a positive CFL are given, the fixed time step is tested first and
is written uniformly to every interior cell. -/
theorem CalcBlockTimeStep_error_and_precedence (inputVars : Input)
    (aRef : ℚ) (b : FlowBlock) :
    (inputVars.dt ≤ 0 → inputVars.cfl ≤ 0 →
      0 < b.numI → 0 < b.numJ → 0 < b.numK →
      CalcBlockTimeStep inputVars aRef b = Except.error ()) ∧
    (0 < inputVars.dt →
      ∃ b2, CalcBlockTimeStep inputVars aRef b = Except.ok b2 ∧
        ∀ c : Cell, inBlock b c →
          b2.dt c = inputVars.dt * aRef / inputVars.lRef) := by
  constructor
  · intro hdt hcfl hI hJ hK
    have hmem : ((0 : ℤ), (0 : ℤ), (0 : ℤ)) ∈ cellList b.numI b.numJ b.numK :=
      (mem_cellList _ _ _ _).mpr (by
        refine ⟨le_refl 0, ?_, le_refl 0, ?_, le_refl 0, ?_⟩ <;>
          simp only [] <;> omega)
    unfold CalcBlockTimeStep
    cases h : cellList b.numI b.numJ b.numK with
    | nil => rw [h] at hmem; cases hmem
    | cons a L =>
      rw [List.foldlM_cons, if_neg (not_lt.mpr hdt), if_neg (not_lt.mpr hcfl)]
      rfl
  · intro hdt
    refine ⟨(cellList b.numI b.numJ b.numK).foldl (fun b c =>
      { b with dt := Function.update b.dt c
                       (inputVars.dt * aRef / inputVars.lRef) }) b, ?_, ?_⟩
    · unfold CalcBlockTimeStep
      exact CalcBlockTimeStep_fixed_path inputVars aRef hdt _ b
    · intro c hc
      rw [foldl_fixedStep_eq]
      have key := foldl_update_eq
        (fun i (a : ℚ) => inputVars.dt * aRef / inputVars.lRef)
        (cellList b.numI b.numJ b.numK) (cellList_nodup _ _ _) b.dt c
      rw [if_pos ((mem_cellList _ _ _ c).mpr hc)] at key
      exact key

/-- Concrete block for the time-step witnesses: one interior cell, two
ghost layers, volume one and accumulated wave speed one everywhere. -/
def tsBlock : FlowBlock :=
  ⟨1, 1, 1, 2, fun _ => ⟨1, 0, 0, 0, 1, 0, 0⟩, fun _ => 1,
    fun _ => GenArray.zero, fun _ => 1, fun _ => 1, fun _ => 0, 0⟩

/-- Witness for C10: with dt = 0 and cfl = 0 the kernel errors; with
dt = 2 and cfl = 1 both positive, the fixed step wins. -/
theorem CalcBlockTimeStep_error_and_precedence_witness :
    ((0 : ℚ) ≤ 0 ∧ (0 : ℚ) ≤ 0 ∧ 0 < 1 ∧
      CalcBlockTimeStep ⟨"explicitEuler", 0, 0, 1⟩ 1 tsBlock =
        Except.error ()) ∧
    ((0 : ℚ) < 2 ∧
      ∃ b2, CalcBlockTimeStep ⟨"explicitEuler", 2, 1, 1⟩ 1 tsBlock =
          Except.ok b2 ∧
        ∀ c : Cell, inBlock tsBlock c → b2.dt c = 2 * 1 / 1) :=
  ⟨⟨le_refl 0, le_refl 0, Nat.one_pos,
    (CalcBlockTimeStep_error_and_precedence ⟨"explicitEuler", 0, 0, 1⟩ 1
      tsBlock).1 (le_refl 0) (le_refl 0) Nat.one_pos Nat.one_pos Nat.one_pos⟩,
   ⟨by norm_num,
    (CalcBlockTimeStep_error_and_precedence ⟨"explicitEuler", 2, 1, 1⟩ 1
      tsBlock).2 (by norm_num)⟩⟩

end Aither

namespace Aither

/-- Interior membership transports along equal block dimensions. -/
theorem inBlock_of_dims {b1 b2 : FlowBlock} (c : Cell)
    (h1 : b1.numI = b2.numI) (h2 : b1.numJ = b2.numJ)
    (h3 : b1.numK = b2.numK) (h : inBlock b2 c) : inBlock b1 c := by
  unfold inBlock at h ⊢
  rw [h1, h2, h3]
  exact h

/-- Wave speed of an interior cell after the sweeps, for a block whose
wave speed starts at zero on that cell. -/
theorem AssembleWaveSpeed_ws_aux (visc : Bool)
    (lamI lamJ lamK lamVI lamVJ lamVK : Cell → ℚ) (b0 : FlowBlock) (c : Cell)
    (hc : inBlock b0 c) (h0 : b0.avgWaveSpeed c = 0) :
    (AssembleWaveSpeed visc lamI lamJ lamK lamVI lamVJ lamVK
      b0).avgWaveSpeed c =
      lamI c + lamJ c + lamK c +
        (if visc then vCoeff * (lamVI c + lamVJ c + lamVK c) else 0) := by
  have hc1 : inBlock (CalcInvFluxIWaveSpeed lamI b0) c :=
    inBlock_of_dims c rfl rfl rfl hc
  have hc2 : inBlock (CalcInvFluxJWaveSpeed lamJ
      (CalcInvFluxIWaveSpeed lamI b0)) c :=
    inBlock_of_dims c rfl rfl rfl hc1
  have hc3 : inBlock (CalcInvFluxKWaveSpeed lamK (CalcInvFluxJWaveSpeed lamJ
      (CalcInvFluxIWaveSpeed lamI b0))) c :=
    inBlock_of_dims c rfl rfl rfl hc2
  have h1 := CalcInvFluxIWaveSpeed_ws lamI b0 c hc
  have h2 := CalcInvFluxJWaveSpeed_ws lamJ
    (CalcInvFluxIWaveSpeed lamI b0) c hc1
  have h3 := CalcInvFluxKWaveSpeed_ws lamK
    (CalcInvFluxJWaveSpeed lamJ (CalcInvFluxIWaveSpeed lamI b0)) c hc2
  cases visc with
  | false =>
    show (CalcInvFluxKWaveSpeed lamK (CalcInvFluxJWaveSpeed lamJ
      (CalcInvFluxIWaveSpeed lamI b0))).avgWaveSpeed c = _
    rw [h3, h2, h1, h0, if_neg Bool.false_ne_true]
    ring
  | true =>
    have hc4 : inBlock (CalcViscFluxIWaveSpeed lamVI
        (CalcInvFluxKWaveSpeed lamK (CalcInvFluxJWaveSpeed lamJ
          (CalcInvFluxIWaveSpeed lamI b0)))) c :=
      inBlock_of_dims c rfl rfl rfl hc3
    have hc5 : inBlock (CalcViscFluxJWaveSpeed lamVJ
        (CalcViscFluxIWaveSpeed lamVI
          (CalcInvFluxKWaveSpeed lamK (CalcInvFluxJWaveSpeed lamJ
            (CalcInvFluxIWaveSpeed lamI b0))))) c :=
      inBlock_of_dims c rfl rfl rfl hc4
    have h4 := CalcViscFluxIWaveSpeed_ws lamVI
      (CalcInvFluxKWaveSpeed lamK (CalcInvFluxJWaveSpeed lamJ
        (CalcInvFluxIWaveSpeed lamI b0))) c hc3
    have h5 := CalcViscFluxJWaveSpeed_ws lamVJ
      (CalcViscFluxIWaveSpeed lamVI
        (CalcInvFluxKWaveSpeed lamK (CalcInvFluxJWaveSpeed lamJ
          (CalcInvFluxIWaveSpeed lamI b0)))) c hc4
    have h6 := CalcViscFluxKWaveSpeed_ws lamVK
      (CalcViscFluxJWaveSpeed lamVJ
        (CalcViscFluxIWaveSpeed lamVI
          (CalcInvFluxKWaveSpeed lamK (CalcInvFluxJWaveSpeed lamJ
            (CalcInvFluxIWaveSpeed lamI b0))))) c hc5
    show (CalcViscFluxKWaveSpeed lamVK
      (CalcViscFluxJWaveSpeed lamVJ
        (CalcViscFluxIWaveSpeed lamVI
          (CalcInvFluxKWaveSpeed lamK (CalcInvFluxJWaveSpeed lamJ
            (CalcInvFluxIWaveSpeed lamI b0)))))).avgWaveSpeed c = _
    rw [h6, h5, h4, h3, h2, h1, h0, if_pos rfl]
    ring

/-- Wave speed of an interior cell after a reset followed by the inviscid
sweeps and, in viscous mode, the viscous sweeps. -/
theorem AssembleWaveSpeed_ws (visc : Bool)
    (lamI lamJ lamK lamVI lamVJ lamVK : Cell → ℚ) (b : FlowBlock) (c : Cell)
    (hc : inBlock b c) :
    (AssembleWaveSpeed visc lamI lamJ lamK lamVI lamVJ lamVK
      (ResetResidWS b)).avgWaveSpeed c =
      lamI c + lamJ c + lamK c +
        (if visc then vCoeff * (lamVI c + lamVJ c + lamVK c) else 0) := by
  refine AssembleWaveSpeed_ws_aux visc lamI lamJ lamK lamVI lamVJ lamVK
    (ResetResidWS b) c ?_ (ResetResidWS_ws b c hc)
  rw [ResetResidWS_eq]
  exact hc

end Aither

namespace Aither

set_option maxHeartbeats 2000000 in
/-- C4: with no user-fixed time step and a positive CFL, CalcBlockTimeStep
assigns every interior cell dt = CFL * V / (lamI + lamJ + lamK + vCoeff *
(lamVI + lamVJ + lamVK)), the lambdas being the per-direction spectral
radii accumulated into avgWaveSpeed during flux assembly, with the viscous
sum omitted for inviscid runs; with a user-fixed time step the uniform
value dt * aRef / lRef is written to every interior cell. -/
theorem CalcBlockTimeStep_local_formula (inputVars : Input) (aRef : ℚ)
    (visc : Bool) (lamI lamJ lamK lamVI lamVJ lamVK : Cell → ℚ)
    (b : FlowBlock) :
    (inputVars.dt ≤ 0 → 0 < inputVars.cfl →
      ∃ b2, CalcBlockTimeStep inputVars aRef
          (AssembleWaveSpeed visc lamI lamJ lamK lamVI lamVJ lamVK
            (ResetResidWS b)) = Except.ok b2 ∧
        ∀ c : Cell, inBlock b c →
          b2.dt c = inputVars.cfl * (b.vol (ghost b.numGhosts c) /
            (lamI c + lamJ c + lamK c +
              (if visc then vCoeff * (lamVI c + lamVJ c + lamVK c)
               else 0)))) ∧
    (0 < inputVars.dt →
      ∃ b2, CalcBlockTimeStep inputVars aRef b = Except.ok b2 ∧
        ∀ c : Cell, inBlock b c →
          b2.dt c = inputVars.dt * aRef / inputVars.lRef) := by
  have hnI : (AssembleWaveSpeed visc lamI lamJ lamK lamVI lamVJ lamVK
      (ResetResidWS b)).numI = b.numI := by
    rw [ResetResidWS_eq]
    cases visc <;> rfl
  have hnJ : (AssembleWaveSpeed visc lamI lamJ lamK lamVI lamVJ lamVK
      (ResetResidWS b)).numJ = b.numJ := by
    rw [ResetResidWS_eq]
    cases visc <;> rfl
  have hnK : (AssembleWaveSpeed visc lamI lamJ lamK lamVI lamVJ lamVK
      (ResetResidWS b)).numK = b.numK := by
    rw [ResetResidWS_eq]
    cases visc <;> rfl
  have hG : (AssembleWaveSpeed visc lamI lamJ lamK lamVI lamVJ lamVK
      (ResetResidWS b)).numGhosts = b.numGhosts := by
    rw [ResetResidWS_eq]
    cases visc <;> rfl
  have hvol : (AssembleWaveSpeed visc lamI lamJ lamK lamVI lamVJ lamVK
      (ResetResidWS b)).vol = b.vol := by
    rw [ResetResidWS_eq]
    cases visc <;> rfl
  constructor
  · intro hdt hcfl
    refine ⟨(cellList (AssembleWaveSpeed visc lamI lamJ lamK lamVI lamVJ
        lamVK (ResetResidWS b)).numI
      (AssembleWaveSpeed visc lamI lamJ lamK lamVI lamVJ lamVK
        (ResetResidWS b)).numJ
      (AssembleWaveSpeed visc lamI lamJ lamK lamVI lamVJ lamVK
        (ResetResidWS b)).numK).foldl
        (fun b c => CalcCellDt b c inputVars.cfl)
        (AssembleWaveSpeed visc lamI lamJ lamK lamVI lamVJ lamVK
          (ResetResidWS b)), ?_, ?_⟩
    · unfold CalcBlockTimeStep
      exact CalcBlockTimeStep_cfl_path inputVars aRef hdt hcfl _ _
    · intro c hc
      have hcA : inBlock (AssembleWaveSpeed visc lamI lamJ lamK lamVI lamVJ
          lamVK (ResetResidWS b)) c := inBlock_of_dims c hnI hnJ hnK hc
      rw [foldl_calcCellDt_eq]
      dsimp only
      have key := foldl_update_eq (fun i (a : ℚ) =>
        inputVars.cfl * ((AssembleWaveSpeed visc lamI lamJ lamK lamVI lamVJ
            lamVK (ResetResidWS b)).vol
          (ghost (AssembleWaveSpeed visc lamI lamJ lamK lamVI lamVJ lamVK
            (ResetResidWS b)).numGhosts i) /
          (AssembleWaveSpeed visc lamI lamJ lamK lamVI lamVJ lamVK
            (ResetResidWS b)).avgWaveSpeed i))
        (cellList (AssembleWaveSpeed visc lamI lamJ lamK lamVI lamVJ lamVK
            (ResetResidWS b)).numI
          (AssembleWaveSpeed visc lamI lamJ lamK lamVI lamVJ lamVK
            (ResetResidWS b)).numJ
          (AssembleWaveSpeed visc lamI lamJ lamK lamVI lamVJ lamVK
            (ResetResidWS b)).numK)
        (cellList_nodup _ _ _)
        (AssembleWaveSpeed visc lamI lamJ lamK lamVI lamVJ lamVK
          (ResetResidWS b)).dt c
      rw [if_pos ((mem_cellList _ _ _ c).mpr hcA)] at key
      rw [key, hvol, hG, AssembleWaveSpeed_ws visc lamI lamJ lamK lamVI
        lamVJ lamVK b c hc]
  · intro hdt
    refine ⟨(cellList b.numI b.numJ b.numK).foldl (fun b c =>
      { b with dt := Function.update b.dt c
                       (inputVars.dt * aRef / inputVars.lRef) }) b, ?_, ?_⟩
    · unfold CalcBlockTimeStep
      exact CalcBlockTimeStep_fixed_path inputVars aRef hdt _ b
    · intro c hc
      rw [foldl_fixedStep_eq]
      have key := foldl_update_eq
        (fun i (a : ℚ) => inputVars.dt * aRef / inputVars.lRef)
        (cellList b.numI b.numJ b.numK) (cellList_nodup _ _ _) b.dt c
      rw [if_pos ((mem_cellList _ _ _ c).mpr hc)] at key
      exact key

/-- Witness for C4 at a one-cell block with unit spectral radii, a viscous
run, CFL one and no fixed time step. -/
theorem CalcBlockTimeStep_local_formula_witness :
    ((0 : ℚ) ≤ 0 ∧ (0 : ℚ) < 1 ∧
      ∃ b2, CalcBlockTimeStep ⟨"rk4", 0, 1, 1⟩ 1
          (AssembleWaveSpeed true (fun _ => 1) (fun _ => 1) (fun _ => 1)
            (fun _ => 1) (fun _ => 1) (fun _ => 1)
            (ResetResidWS tsBlock)) = Except.ok b2 ∧
        ∀ c : Cell, inBlock tsBlock c →
          b2.dt c = 1 * (tsBlock.vol (ghost tsBlock.numGhosts c) /
            ((fun _ => (1 : ℚ)) c + (fun _ => (1 : ℚ)) c +
              (fun _ => (1 : ℚ)) c +
              (if true then vCoeff * ((fun _ => (1 : ℚ)) c +
                (fun _ => (1 : ℚ)) c + (fun _ => (1 : ℚ)) c) else 0)))) :=
  ⟨le_refl 0, by norm_num,
    (CalcBlockTimeStep_local_formula ⟨"rk4", 0, 1, 1⟩ 1 true
      (fun _ => 1) (fun _ => 1) (fun _ => 1) (fun _ => 1) (fun _ => 1)
      (fun _ => 1) tsBlock).1 (le_refl 0) (by norm_num)⟩

end Aither

namespace Aither

/-! ## Block update drivers (procBlock.cpp, UpdateBlock and friends) -/

/-- Modelled from the spec: resid::UpdateMax (resid class not under src/)
overwrites the record with the new maximum and its five-integer locator. -/
def UpdateMax (r : Resid) (v : ℚ) (blk i j k eqn : ℤ) : Resid :=
  ⟨v, blk, i, j, k, eqn⟩

/-- Inner equation loop of the norm accumulation in procBlock::UpdateBlock:
for each equation index, on improvement record the value and the locator
(parent block, i, j, k, equation index plus one). -/
def accumLinf (lf : Resid) (r : GenArray) (parB ip jp kp : ℤ) : Resid :=
  (List.range 7).foldl (fun lf ll =>
    if lf.linf < r.comp ll then
      UpdateMax lf (r.comp ll) parB ip jp kp ((ll : ℤ) + 1)
    else lf) lf

/-- Translation of procBlock::ExplicitEulerTimeAdvance (procBlock.cpp):
replace the cell state by the primitive form of ConsVars(U) minus dt over
volume times the residual.  cg is the ghost-padded index, cp the interior
index of the same cell. -/
def ExplicitEulerTimeAdvance (gamma : ℚ) (b : FlowBlock) (cg cp : Cell) :
    FlowBlock :=
  let consV := (consVars gamma (b.state cg)).sub
    (GenArray.smul (b.dt cp / b.vol cg) (b.residual cp))
  { b with state := Function.update b.state cg (primVarsFromCons gamma consV) }

/-- Translation of procBlock::ImplicitTimeAdvance (procBlock.cpp). -/
def ImplicitTimeAdvance (gamma : ℚ) (du : GenArray) (b : FlowBlock)
    (cg : Cell) : FlowBlock :=
  let newS := updateWithConsVars gamma (b.state cg) du
  { b with state := Function.update b.state cg newS }

/-- Low-storage Runge-Kutta coefficients (the alpha array of
procBlock::RK4TimeAdvance). -/
def rk4Alpha (rk : ℕ) : ℚ :=
  match rk with
  | 0 => 1 / 4
  | 1 => 1 / 3
  | 2 => 1 / 2
  | _ => 1

/-- Translation of procBlock::RK4TimeAdvance (procBlock.cpp): the new cell
state is the primitive form of ConsVars(currState) minus dt over volume
times alpha(rk) times the residual.  Note that the member array dt of the
receiver block is read, at the moment of the call. -/
def RK4TimeAdvance (currState : PrimVars) (gamma : ℚ) (b : FlowBlock)
    (cg cp : Cell) (rk : ℕ) : FlowBlock :=
  let consV := (consVars gamma currState).sub
    (GenArray.smul (b.dt cp / b.vol cg * rk4Alpha rk) (b.residual cp))
  { b with state := Function.update b.state cg (primVarsFromCons gamma consV) }

/-- Cell body of the non-Runge-Kutta branch of procBlock::UpdateBlock:
advance the cell (explicit Euler, or the implicit correction when impFlag
is set), then accumulate the L2 norm and the L-infinity record. -/
def updateBlockCellExp (inputVars : Input) (impFlag : Bool) (gamma : ℚ)
    (du : Cell → GenArray) (numG : ℕ) (st : FlowBlock × GenArray × Resid)
    (c : Cell) : FlowBlock × GenArray × Resid :=
  let b1 := if inputVars.timeIntegration = "explicitEuler" then
      ExplicitEulerTimeAdvance gamma st.1 (ghost numG c) c
    else if impFlag then
      ImplicitTimeAdvance gamma (du c) st.1 (ghost numG c)
    else st.1
  let l2a := st.2.1.add ((b1.residual c).mul (b1.residual c))
  let lfa := accumLinf st.2.2 (b1.residual c) b1.parBlock c.1 c.2.1 c.2.2
  (b1, l2a, lfa)

/-- Cell body of a Runge-Kutta stage of procBlock::UpdateBlock: advance
one RK stage from the saved state, and on the last stage (rr = 3) also
accumulate the L2 norm and the L-infinity record. -/
def rk4StageCell (gamma : ℚ) (stateN : Cell → PrimVars) (numG : ℕ)
    (rr : ℕ) (st : FlowBlock × GenArray × Resid) (c : Cell) :
    FlowBlock × GenArray × Resid :=
  let b1 := RK4TimeAdvance (stateN (ghost numG c)) gamma st.1
    (ghost numG c) c rr
  if rr == 3 then
    let l2a := st.2.1.add ((b1.residual c).mul (b1.residual c))
    let lfa := accumLinf st.2.2 (b1.residual c) b1.parBlock c.1 c.2.1 c.2.2
    (b1, l2a, lfa)
  else (b1, st.2.1, st.2.2)

/-- Translation of procBlock::UpdateBlock (procBlock.cpp).  For a
non-rk4 time integration the cell loop advances and accumulates norms.
For rk4 the state and the local time step are saved (dtN below, which the
source never reads afterwards), four stages run with norm accumulation on
the last, and between stages 0 to 2 the residuals are re-assembled
(CalcInvFluxI, CalcInvFluxJ, CalcInvFluxK, passed here abstractly as
fluxes, since the claims do not constrain the assembled values) and the
time step recomputed by the in-src CalcBlockTimeStep.  The trailing
unrecognized-scheme branch of the source is unreachable (its guard
contradicts the first branch) and prints without exiting. -/
def UpdateBlock (inputVars : Input) (impFlag : Bool) (gamma aRef : ℚ)
    (du : Cell → GenArray) (fluxes : FlowBlock → FlowBlock)
    (b : FlowBlock) (l2 : GenArray) (linf : Resid) :
    Except Unit (FlowBlock × GenArray × Resid) :=
  if inputVars.timeIntegration ≠ "rk4" then
    Except.ok ((cellList b.numI b.numJ b.numK).foldl
      (updateBlockCellExp inputVars impFlag gamma du b.numGhosts)
      (b, l2, linf))
  else
    let stateN := b.state
    let dtN := b.dt
    ([0, 1, 2, 3] : List ℕ).foldlM (fun st rr =>
      let st1 := (cellList b.numI b.numJ b.numK).foldl
        (rk4StageCell gamma stateN b.numGhosts rr) st
      if rr < 3 then
        (CalcBlockTimeStep inputVars aRef (fluxes st1.1)).map
          (fun b3 => (b3, st1.2.1, st1.2.2))
      else Except.ok st1) (b, l2, linf)

end Aither

namespace Aither

/-- Ghost padding is injective on indices. -/
theorem ghost_injective (numG : ℕ) : Function.Injective (ghost numG) := by
  rintro ⟨a1, a2, a3⟩ ⟨b1, b2, b3⟩ h
  unfold ghost at h
  simp only [Prod.mk.injEq] at h ⊢
  omega

/-- A fold of keyed overwrites leaves a location untouched when no visited
key maps there. -/
theorem foldl_preserve_of_not_key {α : Type} (key : Cell → Cell)
    (g : Cell → (Cell → α) → α) :
    ∀ (L : List Cell) (w : Cell → α) (k : Cell), (∀ i ∈ L, key i ≠ k) →
      (L.foldl (fun w i => Function.update w (key i) (g i w)) w) k = w k := by
  intro L
  induction L with
  | nil => intro w k _; rfl
  | cons a L ih =>
    intro w k hk
    simp only [List.foldl_cons]
    rw [ih _ _ (fun i hi => hk i (by simp [hi]))]
    exact Function.update_noteq (fun h => hk a (by simp) (by rw [h])) _ _
  
/-- A fold of keyed overwrites with an injective key: the value at the key
of a visited index is one application of the body to the initial value. -/
theorem foldl_update_key_eq {α : Type} (key : Cell → Cell)
    (hinj : Function.Injective key) (g : Cell → α → α) :
    ∀ (L : List Cell), L.Nodup → ∀ (w : Cell → α) (c : Cell), c ∈ L →
      (L.foldl (fun w i =>
        Function.update w (key i) (g i (w (key i)))) w) (key c) =
        g c (w (key c)) := by
  intro L
  induction L with
  | nil => intro _ w c hc; cases hc
  | cons a L ih =>
    intro hnd w c hc
    have hndL := (List.nodup_cons.mp hnd).2
    have haL := (List.nodup_cons.mp hnd).1
    simp only [List.foldl_cons]
    by_cases hca : c = a
    · subst hca
      rw [foldl_preserve_of_not_key key _ L _ (key c)
        (fun i hi h => haL (by rwa [hinj h] at hi))]
      rw [Function.update_same]
    · have hcL : c ∈ L := by
        rcases List.mem_cons.mp hc with h | h
        · exact absurd h hca
        · exact h
      rw [ih hndL _ c hcL]
      rw [Function.update_noteq (fun h => hca (hinj h)) _ _]

/-- Closed form of the explicit-Euler cell fold: only the state changes,
each visited cell once, reading the fold-invariant dt, volume and
residual arrays. -/
theorem foldl_euler_eq (gamma : ℚ) (numG : ℕ) : ∀ (L : List Cell) (b : FlowBlock),
    L.foldl (fun b c => ExplicitEulerTimeAdvance gamma b (ghost numG c) c) b =
      { b with state := L.foldl (fun s c => Function.update s (ghost numG c)
          (primVarsFromCons gamma ((consVars gamma (s (ghost numG c))).sub
            (GenArray.smul (b.dt c / b.vol (ghost numG c))
              (b.residual c))))) b.state } := by
  intro L
  induction L with
  | nil => intro b; rfl
  | cons a L ih =>
    intro b
    simp only [List.foldl_cons]
    exact ih _

/-- The block component of the non-rk4 update fold ignores the norm
accumulators. -/
theorem foldl_cellExp_fst (inputVars : Input) (impFlag : Bool) (gamma : ℚ)
    (du : Cell → GenArray) (numG : ℕ) :
    ∀ (L : List Cell) (st : FlowBlock × GenArray × Resid),
      (L.foldl (updateBlockCellExp inputVars impFlag gamma du numG) st).1 =
        L.foldl (fun b c =>
          if inputVars.timeIntegration = "explicitEuler" then
            ExplicitEulerTimeAdvance gamma b (ghost numG c) c
          else if impFlag then
            ImplicitTimeAdvance gamma (du c) b (ghost numG c)
          else b) st.1 := by
  intro L
  induction L with
  | nil => intro st; rfl
  | cons a L ih =>
    intro st
    simp only [List.foldl_cons]
    rw [ih]
    rfl

/-- Under the explicitEuler scheme the per-cell block step is the explicit
Euler advance. -/
theorem foldl_blockStep_euler (inputVars : Input) (impFlag : Bool)
    (gamma : ℚ) (du : Cell → GenArray) (numG : ℕ)
    (hti : inputVars.timeIntegration = "explicitEuler") :
    ∀ (L : List Cell) (b : FlowBlock),
      L.foldl (fun b c =>
        if inputVars.timeIntegration = "explicitEuler" then
          ExplicitEulerTimeAdvance gamma b (ghost numG c) c
        else if impFlag then
          ImplicitTimeAdvance gamma (du c) b (ghost numG c)
        else b) b =
      L.foldl (fun b c =>
        ExplicitEulerTimeAdvance gamma b (ghost numG c) c) b := by
  intro L b
  have hfn : (fun (b : FlowBlock) (c : Cell) =>
      if inputVars.timeIntegration = "explicitEuler" then
        ExplicitEulerTimeAdvance gamma b (ghost numG c) c
      else if impFlag then
        ImplicitTimeAdvance gamma (du c) b (ghost numG c)
      else b) =
      (fun b c => ExplicitEulerTimeAdvance gamma b (ghost numG c) c) := by
    funext b c
    rw [hti, if_pos rfl]
  rw [hfn]

/-- C3: for every interior cell, the explicit Euler update replaces the
cell state by the primitive form of ConsVars(U) minus dt over V times R,
and therefore (whenever the updated conserved state has non-zero density,
so that the primitive conversion is invertible) the conserved state
becomes ConsVars(U) minus dt over V times R. -/
theorem ExplicitEuler_update_conserved (inputVars : Input) (impFlag : Bool)
    (gamma aRef : ℚ) (du : Cell → GenArray) (fluxes : FlowBlock → FlowBlock)
    (b : FlowBlock) (l2 : GenArray) (linf : Resid)
    (hti : inputVars.timeIntegration = "explicitEuler")
    (hg : gamma - 1 ≠ 0) :
    ∃ st, UpdateBlock inputVars impFlag gamma aRef du fluxes b l2 linf =
        Except.ok st ∧
      ∀ c : Cell, inBlock b c →
        st.1.state (ghost b.numGhosts c) =
          primVarsFromCons gamma ((consVars gamma
            (b.state (ghost b.numGhosts c))).sub
            (GenArray.smul (b.dt c / b.vol (ghost b.numGhosts c))
              (b.residual c))) ∧
        (((consVars gamma (b.state (ghost b.numGhosts c))).sub
            (GenArray.smul (b.dt c / b.vol (ghost b.numGhosts c))
              (b.residual c))).mass ≠ 0 →
          consVars gamma (st.1.state (ghost b.numGhosts c)) =
            (consVars gamma (b.state (ghost b.numGhosts c))).sub
              (GenArray.smul (b.dt c / b.vol (ghost b.numGhosts c))
                (b.residual c))) := by
  have hbr : inputVars.timeIntegration ≠ "rk4" := by
    rw [hti]
    decide
  refine ⟨(cellList b.numI b.numJ b.numK).foldl
    (updateBlockCellExp inputVars impFlag gamma du b.numGhosts)
    (b, l2, linf), ?_, ?_⟩
  · unfold UpdateBlock
    rw [if_pos hbr]
  · intro c hc
    have hval : ((cellList b.numI b.numJ b.numK).foldl
        (updateBlockCellExp inputVars impFlag gamma du b.numGhosts)
        (b, l2, linf)).1.state (ghost b.numGhosts c) =
        primVarsFromCons gamma ((consVars gamma
          (b.state (ghost b.numGhosts c))).sub
          (GenArray.smul (b.dt c / b.vol (ghost b.numGhosts c))
            (b.residual c))) := by
      rw [foldl_cellExp_fst, foldl_blockStep_euler inputVars impFlag gamma
        du b.numGhosts hti, foldl_euler_eq]
      exact foldl_update_key_eq (ghost b.numGhosts)
        (ghost_injective b.numGhosts)
        (fun c s => primVarsFromCons gamma ((consVars gamma s).sub
          (GenArray.smul (b.dt c / b.vol (ghost b.numGhosts c))
            (b.residual c))))
        (cellList b.numI b.numJ b.numK) (cellList_nodup _ _ _) b.state c
        ((mem_cellList _ _ _ c).mpr hc)
    refine ⟨hval, ?_⟩
    intro hmass
    rw [hval]
    exact consVars_primVarsFromCons gamma _ hmass hg

end Aither

namespace Aither

/-- Witness for C3 at a one-cell block. -/
theorem ExplicitEuler_update_conserved_witness :
    (⟨"explicitEuler", 0, 1, 1⟩ : Input).timeIntegration = "explicitEuler" ∧
    (7 / 5 : ℚ) - 1 ≠ 0 ∧
    ∃ st, UpdateBlock ⟨"explicitEuler", 0, 1, 1⟩ false (7 / 5) 1
        (fun _ => GenArray.zero) id tsBlock GenArray.zero
        ⟨0, 0, 0, 0, 0, 0⟩ = Except.ok st ∧
      ∀ c : Cell, inBlock tsBlock c →
        st.1.state (ghost tsBlock.numGhosts c) =
          primVarsFromCons (7 / 5) ((consVars (7 / 5)
            (tsBlock.state (ghost tsBlock.numGhosts c))).sub
            (GenArray.smul (tsBlock.dt c / tsBlock.vol
              (ghost tsBlock.numGhosts c)) (tsBlock.residual c))) ∧
        (((consVars (7 / 5) (tsBlock.state (ghost tsBlock.numGhosts c))).sub
            (GenArray.smul (tsBlock.dt c / tsBlock.vol
              (ghost tsBlock.numGhosts c)) (tsBlock.residual c))).mass ≠ 0 →
          consVars (7 / 5) (st.1.state (ghost tsBlock.numGhosts c)) =
            (consVars (7 / 5) (tsBlock.state
              (ghost tsBlock.numGhosts c))).sub
              (GenArray.smul (tsBlock.dt c / tsBlock.vol
                (ghost tsBlock.numGhosts c)) (tsBlock.residual c))) :=
  ⟨rfl, by norm_num,
    ExplicitEuler_update_conserved ⟨"explicitEuler", 0, 1, 1⟩ false (7 / 5) 1
      (fun _ => GenArray.zero) id tsBlock GenArray.zero ⟨0, 0, 0, 0, 0, 0⟩
      rfl (by norm_num)⟩

/-! Failing-input scenario for the rk4 driver: a one-cell block entering
UpdateBlock with local time step one (saved as dtN) and accumulated wave
speed one; each residual re-assembly adds a positive spectral radius (one)
to the accumulated wave speed, as the real CalcInvFlux sweeps do, so the
recomputed time step differs from the saved one at every later stage. -/

/-- Entry state of the failing-input block. -/
def rkPrim : PrimVars := ⟨1, 0, 0, 0, 5 / 7, 0, 0⟩

/-- Entry residual of the failing-input block (any non-zero value). -/
def rkRes : GenArray := ⟨1, 0, 0, 0, 0, 0, 0⟩

/-- The failing-input block: one interior cell, two ghost layers, volume
one, time step one, accumulated wave speed one. -/
def rkBlock : FlowBlock :=
  ⟨1, 1, 1, 2, fun _ => rkPrim, fun _ => 1, fun _ => rkRes, fun _ => 1,
    fun _ => 1, fun _ => 0, 0⟩

/-- rk4 input with CFL one and no fixed time step. -/
def rkInput : Input := ⟨"rk4", 0, 1, 1⟩

/-- Stand-in for the CalcInvFluxI/J/K composite at the failing input: the
residual increments cancel for this uniform state while the inviscid
spectral radius accumulation adds a positive amount (one) to the wave
speed of the cell, as the in-src sweeps do on every call. -/
def rkFlux : FlowBlock → FlowBlock := fun b =>
  { b with avgWaveSpeed := fun c => b.avgWaveSpeed c + 1 }

/-- Zero residual record. -/
def linf0 : Resid := ⟨0, 0, 0, 0, 0, 0⟩

/-- The driver state after stage 0 of the rk4 branch of UpdateBlock. -/
def rkStage0 : FlowBlock × GenArray × Resid :=
  (cellList 1 1 1).foldl (rk4StageCell (7 / 5) rkBlock.state 2 0)
    (rkBlock, GenArray.zero, linf0)

/-- The time step recomputed between stage 0 and stage 1, exactly as the
rk4 branch of UpdateBlock computes it. -/
def rkRecomputed : Except Unit FlowBlock :=
  CalcBlockTimeStep rkInput 1 (rkFlux rkStage0.1)

/-- Read the block out of a non-error result. -/
def blockOfE (e : Except Unit FlowBlock) : FlowBlock :=
  match e with
  | Except.ok b => b
  | Except.error _ => rkBlock

/-- Read a time-step entry out of a non-error result. -/
def dtOfE (e : Except Unit FlowBlock) (c : Cell) : ℚ :=
  (blockOfE e).dt c

/-- The driver state after stage 1 of the rk4 branch of UpdateBlock. -/
def rkStage1 : FlowBlock × GenArray × Resid :=
  (cellList 1 1 1).foldl (rk4StageCell (7 / 5) rkBlock.state 2 1)
    (blockOfE rkRecomputed, rkStage0.2.1, rkStage0.2.2)

/-- The full rk4 driver run at the failing input. -/
def rkDriver : Except Unit (FlowBlock × GenArray × Resid) :=
  UpdateBlock rkInput false (7 / 5) 1 (fun _ => GenArray.zero) rkFlux
    rkBlock GenArray.zero linf0

/-- Read a time-step entry out of a non-error driver result. -/
def driverDt (e : Except Unit (FlowBlock × GenArray × Resid)) (c : Cell) : ℚ :=
  match e with
  | Except.ok st => st.1.dt c
  | Except.error _ => 0

/-- The one-cell index list in closed form. -/
theorem cellList_one : cellList 1 1 1 = [((0 : ℤ), (0 : ℤ), (0 : ℤ))] := rfl

/-- Bind of a success in the Except monad. -/
theorem exceptBindOk {α β : Type} (x : α) (f : α → Except Unit β) :
    (Except.ok x >>= f) = f x := rfl

/-- Pure in the Except monad. -/
theorem exceptPure {α : Type} (x : α) : (pure x : Except Unit α) = Except.ok x :=
  rfl

/-- Map over a success in the Except monad. -/
theorem exceptMapOk {α β : Type} (f : α → β) (x : α) :
    Except.map f (Except.ok x : Except Unit α) = Except.ok (f x) := rfl

/-- On any one-cell block, the cfl branch of CalcBlockTimeStep at the rk4
failing input reduces to a single CalcCellDt call. -/
theorem calcBlockTimeStep_one (B : FlowBlock) (h1 : B.numI = 1)
    (h2 : B.numJ = 1) (h3 : B.numK = 1) :
    CalcBlockTimeStep rkInput 1 B =
      Except.ok (CalcCellDt B ((0 : ℤ), (0 : ℤ), (0 : ℤ)) 1) := by
  simp only [CalcBlockTimeStep, h1, h2, h3, cellList_one, List.foldlM_cons,
    List.foldlM_nil]
  norm_num [rkInput, exceptBindOk, exceptPure]

/-- C1: at the failing input the rk4 driver of UpdateBlock saves dtN = 1
but never reads it again: the time step recomputed after the stage-0
re-assembly is 1/2, the stage-1 cell update uses that recomputed value
(the member dt read by RK4TimeAdvance) rather than the saved dtN, the
resulting state differs from the state the claim formula with the saved
time step would produce, and the driver finishes with dt = 1/4 after the
third recomputation. -/
theorem UpdateBlock_rk4_uses_recomputed_dt :
    rkBlock.dt (0, 0, 0) = 1 ∧
    rkRecomputed.isOk = true ∧
    dtOfE rkRecomputed (0, 0, 0) = 1 / 2 ∧
    rkStage1.1.state (2, 2, 2) =
      primVarsFromCons (7 / 5) ((consVars (7 / 5)
        (rkBlock.state (2, 2, 2))).sub
        (GenArray.smul (1 / 2 / 1 * rk4Alpha 1)
          (rkBlock.residual (0, 0, 0)))) ∧
    rkStage1.1.state (2, 2, 2) ≠
      primVarsFromCons (7 / 5) ((consVars (7 / 5)
        (rkBlock.state (2, 2, 2))).sub
        (GenArray.smul (rkBlock.dt (0, 0, 0) / 1 * rk4Alpha 1)
          (rkBlock.residual (0, 0, 0)))) ∧
    driverDt rkDriver (0, 0, 0) = 1 / 4 := by
  have hcond : (rkInput.timeIntegration ≠ "rk4") = False := by simp [rkInput]
  have hrec : rkRecomputed =
      Except.ok (CalcCellDt (rkFlux rkStage0.1) ((0 : ℤ), (0 : ℤ), (0 : ℤ)) 1) :=
    calcBlockTimeStep_one _ rfl rfl rfl
  have h3 : dtOfE rkRecomputed ((0 : ℤ), (0 : ℤ), (0 : ℤ)) = 1 / 2 := by
    rw [hrec]
    show (CalcCellDt (rkFlux rkStage0.1) ((0 : ℤ), (0 : ℤ), (0 : ℤ)) 1).dt
      ((0 : ℤ), (0 : ℤ), (0 : ℤ)) = 1 / 2
    norm_num [CalcCellDt, Function.update_same, rkFlux, rkStage0, cellList_one,
      rk4StageCell, RK4TimeAdvance, rkBlock, ghost]
  have h4 : rkStage1.1.state ((2 : ℤ), (2 : ℤ), (2 : ℤ)) =
      primVarsFromCons (7 / 5) ((consVars (7 / 5)
        (rkBlock.state (2, 2, 2))).sub
        (GenArray.smul (1 / 2 / 1 * rk4Alpha 1)
          (rkBlock.residual (0, 0, 0)))) := by
    norm_num [rkStage1, hrec, blockOfE, cellList_one, rk4StageCell,
      RK4TimeAdvance, CalcCellDt, rkFlux, rkStage0, rkBlock, ghost,
      Function.update_same, rk4Alpha, primVarsFromCons, consVars,
      GenArray.sub, GenArray.smul, rkPrim, rkRes]
  refine ⟨rfl, by rw [hrec]; rfl, h3, h4, ?_, ?_⟩
  · rw [h4]
    intro h
    have hr := congrArg PrimVars.rho h
    norm_num [rk4Alpha, primVarsFromCons, consVars, GenArray.sub,
      GenArray.smul, rkBlock, rkPrim, rkRes] at hr
  · norm_num [driverDt, rkDriver, UpdateBlock, hcond, List.foldlM_cons,
      List.foldlM_nil, exceptBindOk, exceptPure, calcBlockTimeStep_one,
      cellList_one, rk4StageCell, RK4TimeAdvance, CalcCellDt, rkFlux,
      rkBlock, ghost, Function.update_same, exceptMapOk, linf0]
    rw [show ((0, 0, 0) : Cell) = 0 from rfl, Function.update_same]

end Aither

namespace Aither

/-! ## Solution gather over MPI (procBlock.cpp PackSendSolMPI /
RecvUnpackSolMPI, parallel.cpp GetProcBlocks)

The MPI pack/unpack calls serialize arrays into one untyped buffer at a
running position; the buffer is modelled as a list of doubles, a message
as destination, tag and buffer.  MPI_cellData covers the seven doubles of
a primVars or genArray. -/

/-- The ROOT processor id (ROOTP in procBlock.cpp, ROOT in parallel.cpp). -/
def ROOTP : ℤ := 0

/-- One MPI message: destination rank, tag, packed buffer. -/
structure MpiMessage where
  dest : ℤ
  tag : ℤ
  payload : List ℚ

/-- Serialization of one primVars under MPI_cellData. -/
def packPrim (s : PrimVars) : List ℚ :=
  [s.rho, s.u, s.v, s.w, s.p, s.tke, s.omg]

/-- Serialization of one genArray under MPI_cellData. -/
def packGen (a : GenArray) : List ℚ :=
  [a.mass, a.mx, a.my, a.mz, a.e, a.tke, a.omg]

/-- The procBlock data the solution gather moves: sizes, location and the
five transferable arrays (state_ padded with ghosts, the rest interior). -/
structure SolBlock where
  numI : ℕ
  numJ : ℕ
  numK : ℕ
  numGhosts : ℕ
  rank : ℤ
  globalPos : ℤ
  state : List PrimVars
  residual : List GenArray
  dt : List ℚ
  wallDist : List ℚ
  avgWaveSpeed : List ℚ

/-- Translation of procBlock::PackSendSolMPI (procBlock.cpp): pack state,
residual, dt, wallDist and avgWaveSpeed, in that order, into one buffer
and send it to ROOTP with the block's global position as the tag. -/
def PackSendSolMPI (b : SolBlock) : MpiMessage :=
  ⟨ROOTP, b.globalPos,
    b.state.flatMap packPrim ++ (b.residual.flatMap packGen ++
      (b.dt ++ (b.wallDist ++ b.avgWaveSpeed)))⟩

/-- Deserialization of one primVars from a buffer position. -/
def unpackPrim (buf : List ℚ) : PrimVars :=
  ⟨buf.getD 0 0, buf.getD 1 0, buf.getD 2 0, buf.getD 3 0, buf.getD 4 0,
    buf.getD 5 0, buf.getD 6 0⟩

/-- Deserialization of one genArray from a buffer position. -/
def unpackGen (buf : List ℚ) : GenArray :=
  ⟨buf.getD 0 0, buf.getD 1 0, buf.getD 2 0, buf.getD 3 0, buf.getD 4 0,
    buf.getD 5 0, buf.getD 6 0⟩

/-- Unpack n primVars from the head of a buffer. -/
def unpackPrims (n : ℕ) (buf : List ℚ) : List PrimVars :=
  (List.range n).map (fun i => unpackPrim (buf.drop (7 * i)))

/-- Unpack n genArrays from the head of a buffer. -/
def unpackGens (n : ℕ) (buf : List ℚ) : List GenArray :=
  (List.range n).map (fun i => unpackGen (buf.drop (7 * i)))

/-- Translation of procBlock::RecvUnpackSolMPI (procBlock.cpp): unpack
state, residual, dt, wallDist and avgWaveSpeed, in that order, each with
the receiving array's size, the position advancing past each batch. -/
def RecvUnpackSolMPI (b : SolBlock) (msg : MpiMessage) : SolBlock :=
  { b with
    state := unpackPrims b.state.length msg.payload,
    residual := unpackGens b.residual.length
      (msg.payload.drop (7 * b.state.length)),
    dt := (msg.payload.drop
      (7 * b.state.length + 7 * b.residual.length)).take b.dt.length,
    wallDist := (msg.payload.drop
      (7 * b.state.length + 7 * b.residual.length + b.dt.length)).take
      b.wallDist.length,
    avgWaveSpeed := (msg.payload.drop
      (7 * b.state.length + 7 * b.residual.length + b.dt.length +
        b.wallDist.length)).take b.avgWaveSpeed.length }

/-- Translation of the non-ROOT branch of GetProcBlocks (parallel.cpp):
pack state, residual, dt and avgWaveSpeed, in that order, and send to
ROOT with the block's global position as the tag. -/
def GetProcBlocksPack (b : SolBlock) : MpiMessage :=
  ⟨ROOTP, b.globalPos,
    b.state.flatMap packPrim ++ (b.residual.flatMap packGen ++
      (b.dt ++ b.avgWaveSpeed))⟩

/-- Translation of the ROOT branch of GetProcBlocks (parallel.cpp): unpack
state, residual, dt and avgWaveSpeed, in that order, with counts computed
from the block dimensions (numCells with ghosts for state, numCellsNG for
the rest). -/
def GetProcBlocksUnpack (b : SolBlock) (msg : MpiMessage) : SolBlock :=
  { b with
    state := unpackPrims
      ((b.numI + 2 * b.numGhosts) * (b.numJ + 2 * b.numGhosts) *
        (b.numK + 2 * b.numGhosts)) msg.payload,
    residual := unpackGens (b.numI * b.numJ * b.numK)
      (msg.payload.drop (7 * ((b.numI + 2 * b.numGhosts) *
        (b.numJ + 2 * b.numGhosts) * (b.numK + 2 * b.numGhosts)))),
    dt := (msg.payload.drop (7 * ((b.numI + 2 * b.numGhosts) *
      (b.numJ + 2 * b.numGhosts) * (b.numK + 2 * b.numGhosts)) +
      7 * (b.numI * b.numJ * b.numK))).take (b.numI * b.numJ * b.numK),
    avgWaveSpeed := (msg.payload.drop (7 * ((b.numI + 2 * b.numGhosts) *
      (b.numJ + 2 * b.numGhosts) * (b.numK + 2 * b.numGhosts)) +
      7 * (b.numI * b.numJ * b.numK) +
      b.numI * b.numJ * b.numK)).take (b.numI * b.numJ * b.numK) }

/-- The buffer the claim describes for the worker pack: exactly state,
residual, dt and avgWaveSpeed, in that order (this definition follows the
claim's words, for comparison with the source translation). -/
def claimedSolPayload (b : SolBlock) : List ℚ :=
  b.state.flatMap packPrim ++ (b.residual.flatMap packGen ++
    (b.dt ++ b.avgWaveSpeed))

end Aither

namespace Aither

/-- A packed primVars occupies seven buffer slots. -/
theorem length_flatMap_packPrim (ps : List PrimVars) :
    (ps.flatMap packPrim).length = 7 * ps.length := by
  induction ps with
  | nil => rfl
  | cons p ps ih =>
    simp only [List.flatMap_cons, List.length_append, ih, List.length_cons,
      packPrim, List.length_nil]
    omega

/-- A packed genArray occupies seven buffer slots. -/
theorem length_flatMap_packGen (rs : List GenArray) :
    (rs.flatMap packGen).length = 7 * rs.length := by
  induction rs with
  | nil => rfl
  | cons r rs ih =>
    simp only [List.flatMap_cons, List.length_append, ih, List.length_cons,
      packGen, List.length_nil]
    omega

/-- Deserialization inverts serialization for one primVars. -/
theorem unpackPrim_packPrim (p : PrimVars) (rest : List ℚ) :
    unpackPrim (packPrim p ++ rest) = p := rfl

/-- Deserialization inverts serialization for one genArray. -/
theorem unpackGen_packGen (a : GenArray) (rest : List ℚ) :
    unpackGen (packGen a ++ rest) = a := rfl

/-- Unpacking a packed primVars batch from the buffer head recovers it. -/
theorem unpackPrims_flatMap (ps : List PrimVars) : ∀ rest : List ℚ,
    unpackPrims ps.length (ps.flatMap packPrim ++ rest) = ps := by
  induction ps with
  | nil => intro rest; rfl
  | cons p ps ih =>
    intro rest
    show (List.range (ps.length + 1)).map _ = _
    rw [List.range_succ_eq_map, List.map_cons, List.map_map]
    refine List.cons_eq_cons.mpr ⟨?_, ?_⟩
    · rw [List.flatMap_cons, List.append_assoc]
      show unpackPrim ((packPrim p ++ (ps.flatMap packPrim ++ rest)).drop
        (7 * 0)) = p
      rw [Nat.mul_zero, List.drop_zero, unpackPrim_packPrim]
    · have hstep : ∀ i : ℕ,
          unpackPrim ((((p :: ps).flatMap packPrim) ++ rest).drop
            (7 * (i + 1))) =
          unpackPrim ((ps.flatMap packPrim ++ rest).drop (7 * i)) := by
        intro i
        rw [List.flatMap_cons, List.append_assoc,
          show 7 * (i + 1) = 7 + 7 * i from by ring, ← List.drop_drop,
          List.drop_left' (show (packPrim p).length = 7 from rfl)]
      calc (List.range ps.length).map _
          = (List.range ps.length).map
              (fun i => unpackPrim ((ps.flatMap packPrim ++ rest).drop
                (7 * i))) := List.map_congr_left (fun i _ => hstep i)
        _ = ps := ih rest

/-- Unpacking a packed genArray batch from the buffer head recovers it. -/
theorem unpackGens_flatMap (rs : List GenArray) : ∀ rest : List ℚ,
    unpackGens rs.length (rs.flatMap packGen ++ rest) = rs := by
  induction rs with
  | nil => intro rest; rfl
  | cons r rs ih =>
    intro rest
    show (List.range (rs.length + 1)).map _ = _
    rw [List.range_succ_eq_map, List.map_cons, List.map_map]
    refine List.cons_eq_cons.mpr ⟨?_, ?_⟩
    · rw [List.flatMap_cons, List.append_assoc]
      show unpackGen ((packGen r ++ (rs.flatMap packGen ++ rest)).drop
        (7 * 0)) = r
      rw [Nat.mul_zero, List.drop_zero, unpackGen_packGen]
    · have hstep : ∀ i : ℕ,
          unpackGen ((((r :: rs).flatMap packGen) ++ rest).drop
            (7 * (i + 1))) =
          unpackGen ((rs.flatMap packGen ++ rest).drop (7 * i)) := by
        intro i
        rw [List.flatMap_cons, List.append_assoc,
          show 7 * (i + 1) = 7 + 7 * i from by ring, ← List.drop_drop,
          List.drop_left' (show (packGen r).length = 7 from rfl)]
      calc (List.range rs.length).map _
          = (List.range rs.length).map
              (fun i => unpackGen ((rs.flatMap packGen ++ rest).drop
                (7 * i))) := List.map_congr_left (fun i _ => hstep i)
        _ = rs := ih rest

end Aither

namespace Aither

/-- C9 (amended): the solution-gather messages are tagged with the block's
global position and sent to ROOT; RecvUnpackSolMPI inverts PackSendSolMPI
(five arrays: state, residual, dt, wallDist, avgWaveSpeed, in that order),
and the ROOT branch of GetProcBlocks inverts its non-ROOT branch (four
arrays: state, residual, dt, avgWaveSpeed, in that order). -/
theorem SolGather_roundTrip (b : SolBlock)
    (hs : b.state.length = (b.numI + 2 * b.numGhosts) *
      (b.numJ + 2 * b.numGhosts) * (b.numK + 2 * b.numGhosts))
    (hr : b.residual.length = b.numI * b.numJ * b.numK)
    (hd : b.dt.length = b.numI * b.numJ * b.numK)
    (ha : b.avgWaveSpeed.length = b.numI * b.numJ * b.numK) :
    (PackSendSolMPI b).dest = ROOTP ∧
    (PackSendSolMPI b).tag = b.globalPos ∧
    RecvUnpackSolMPI b (PackSendSolMPI b) = b ∧
    (GetProcBlocksPack b).tag = b.globalPos ∧
    GetProcBlocksUnpack b (GetProcBlocksPack b) = b := by
  obtain ⟨nI, nJ, nK, nG, rk, gp, st, res, dtL, wd, ws⟩ := b
  simp only at hs hr hd ha
  refine ⟨rfl, rfl, ?_, rfl, ?_⟩
  · simp only [RecvUnpackSolMPI, PackSendSolMPI, SolBlock.mk.injEq, true_and,
      and_true]
    refine ⟨?_, ?_, ?_, ?_, ?_⟩
    · exact unpackPrims_flatMap st _
    · rw [List.drop_left' (length_flatMap_packPrim st)]
      exact unpackGens_flatMap res _
    · rw [← List.append_assoc,
        List.drop_left' (by rw [List.length_append, length_flatMap_packPrim,
          length_flatMap_packGen])]
      exact List.take_left' rfl
    · rw [← List.append_assoc, ← List.append_assoc,
        List.drop_left' (by rw [List.length_append, List.length_append,
          length_flatMap_packPrim, length_flatMap_packGen])]
      exact List.take_left' rfl
    · rw [← List.append_assoc, ← List.append_assoc, ← List.append_assoc,
        List.drop_left' (by rw [List.length_append, List.length_append,
          List.length_append, length_flatMap_packPrim,
          length_flatMap_packGen])]
      exact List.take_length ws
  · simp only [GetProcBlocksUnpack, GetProcBlocksPack, SolBlock.mk.injEq,
      true_and, and_true]
    rw [← hs, ← hr]
    refine ⟨?_, ?_, ?_, ?_⟩
    · exact unpackPrims_flatMap st _
    · rw [List.drop_left' (length_flatMap_packPrim st)]
      exact unpackGens_flatMap res _
    · rw [← List.append_assoc,
        List.drop_left' (by rw [List.length_append, length_flatMap_packPrim,
          length_flatMap_packGen])]
      exact List.take_left' (hd.trans hr.symm)
    · rw [← List.append_assoc, ← List.append_assoc,
        List.drop_left' (by rw [List.length_append, List.length_append,
          length_flatMap_packPrim, length_flatMap_packGen, hd, ← hr])]
      rw [show List.length res = List.length ws from hr.trans ha.symm]
      exact List.take_length ws

/-- One-cell, zero-ghost block used to instantiate the gather theorems. -/
def solWit : SolBlock :=
  ⟨1, 1, 1, 0, 0, 0, [⟨1, 0, 0, 0, 1, 0, 0⟩], [GenArray.zero], [1], [2], [3]⟩

/-- Witness for C9 at a one-cell block. -/
theorem SolGather_roundTrip_witness :
    (solWit.state.length = (solWit.numI + 2 * solWit.numGhosts) *
        (solWit.numJ + 2 * solWit.numGhosts) *
        (solWit.numK + 2 * solWit.numGhosts) ∧
      solWit.residual.length = solWit.numI * solWit.numJ * solWit.numK ∧
      solWit.dt.length = solWit.numI * solWit.numJ * solWit.numK ∧
      solWit.avgWaveSpeed.length =
        solWit.numI * solWit.numJ * solWit.numK) ∧
    ((PackSendSolMPI solWit).dest = ROOTP ∧
      (PackSendSolMPI solWit).tag = solWit.globalPos ∧
      RecvUnpackSolMPI solWit (PackSendSolMPI solWit) = solWit ∧
      (GetProcBlocksPack solWit).tag = solWit.globalPos ∧
      GetProcBlocksUnpack solWit (GetProcBlocksPack solWit) = solWit) :=
  ⟨⟨rfl, rfl, rfl, rfl⟩, SolGather_roundTrip solWit rfl rfl rfl rfl⟩

/-- C9 counterexample to the claimed four-array pack: on a one-cell block
the buffer PackSendSolMPI actually packs also holds the wall distances,
between dt and avgWaveSpeed, so it differs from the claimed buffer of
exactly state, residual, dt, avgWaveSpeed. -/
theorem PackSendSolMPI_not_claimed_four_arrays :
    (PackSendSolMPI solWit).payload ≠ claimedSolPayload solWit := by
  intro h
  have hlen := congrArg List.length h
  simp [PackSendSolMPI, claimedSolPayload, solWit, packPrim, packGen] at hlen

end Aither

namespace Aither

/-! ## Ghost-cell geometry (procBlock.cpp, AssignGhostCellsGeom)

The geometry arrays are modelled as total functions on padded indices
(numGhosts = 2, matching the hard-coded lower-side index constants of the
source).  A boundarySurface carries the surface type (1/2 lower/upper i,
3/4 j, 5/6 k), the BC type string, and the index ranges as bc_ stores
them.  Only the cell-center and face-center arrays are embedded: the
volume and face-area writes of the source touch arrays the claim never
mentions, and the tangential ghost face-center writes (through
multiArray3d Grow, whose code is not under src/) are read by nothing the
claim mentions; both are omitted from this embedding. -/

/-- One boundary surface record of bc_. -/
structure BoundarySurface where
  surfaceType : ℤ
  bcType : String
  iMin : ℤ
  iMax : ℤ
  jMin : ℤ
  jMax : ℤ
  kMin : ℤ
  kMax : ℤ

/-- Geometry state of one block. -/
structure GeomBlock where
  numI : ℕ
  numJ : ℕ
  numK : ℕ
  center : Cell → Vec3
  fCenterI : Cell → Vec3
  fCenterJ : Cell → Vec3
  fCenterK : Cell → Vec3
  surfaces : List BoundarySurface

/-- The cell and face index constants the surface loop of
AssignGhostCellsGeom selects per surface type (g2 g1 i1 i2 for cells, fg2
fg1 bnd fi1 fi2 for faces). -/
structure GhostIdx where
  g2 : ℤ
  g1 : ℤ
  i1 : ℤ
  i2 : ℤ
  fg2 : ℤ
  fg1 : ℤ
  bnd : ℤ
  fi1 : ℤ
  fi2 : ℤ

/-- Body of the surface loop of procBlock::AssignGhostCellsGeom
(procBlock.cpp): adjust the surface ranges for ghost padding, select the
ghost/interior index constants, and on a non-interblock surface write the
two ghost layers of cell centers and boundary-normal face centers, moved
by dist2Move = faceCenter(bnd) - faceCenter(fi1) (the first layer) and
faceCenter(bnd) - faceCenter(fi2) (the second layer; doubled first-layer
move for one-cell-thick blocks). -/
def assignGhostGeomSurf (b : GeomBlock) (s : BoundarySurface) : GeomBlock :=
  let imin := s.iMin - 1 + 2
  let imax := s.iMax - 2 + 2
  let jmin := s.jMin - 1 + 2
  let jmax := s.jMax - 2 + 2
  let kmin := s.kMin - 1 + 2
  let kmax := s.kMax - 2 + 2
  let gi :=
    if s.surfaceType = 2 then
      GhostIdx.mk (imax + 2) (imax + 1) imax (imax - 1) (imax + 3)
        (imax + 2) (imax + 1) imax (imax - 1)
    else if s.surfaceType = 4 then
      GhostIdx.mk (jmax + 2) (jmax + 1) jmax (jmax - 1) (jmax + 3)
        (jmax + 2) (jmax + 1) jmax (jmax - 1)
    else if s.surfaceType = 6 then
      GhostIdx.mk (kmax + 2) (kmax + 1) kmax (kmax - 1) (kmax + 3)
        (kmax + 2) (kmax + 1) kmax (kmax - 1)
    else GhostIdx.mk 0 1 2 3 0 1 2 3 4
  if (s.surfaceType = 1 ∨ s.surfaceType = 2) ∧ s.bcType ≠ "interblock" then
    let dist := fun (j k : ℤ) =>
      b.fCenterI (gi.bnd, j, k) - b.fCenterI (gi.fi1, j, k)
    let c1 := fun c : Cell =>
      if c.1 = gi.g1 ∧ jmin ≤ c.2.1 ∧ c.2.1 ≤ jmax ∧ kmin ≤ c.2.2 ∧
          c.2.2 ≤ kmax then
        b.center (gi.i1, c.2.1, c.2.2) + dist c.2.1 c.2.2
      else b.center c
    let f1 := fun c : Cell =>
      if c.1 = gi.fg1 ∧ jmin ≤ c.2.1 ∧ c.2.1 ≤ jmax ∧ kmin ≤ c.2.2 ∧
          c.2.2 ≤ kmax then
        b.fCenterI (gi.bnd, c.2.1, c.2.2) + dist c.2.1 c.2.2
      else b.fCenterI c
    let dist2 := if b.numI < 2 then fun (j k : ℤ) => (2 : ℚ) • dist j k
      else fun (j k : ℤ) => f1 (gi.bnd, j, k) - f1 (gi.fi2, j, k)
    let c2 := fun c : Cell =>
      if c.1 = gi.g2 ∧ jmin ≤ c.2.1 ∧ c.2.1 ≤ jmax ∧ kmin ≤ c.2.2 ∧
          c.2.2 ≤ kmax then
        c1 (gi.i1, c.2.1, c.2.2) + dist2 c.2.1 c.2.2
      else c1 c
    let f2 := fun c : Cell =>
      if c.1 = gi.fg2 ∧ jmin ≤ c.2.1 ∧ c.2.1 ≤ jmax ∧ kmin ≤ c.2.2 ∧
          c.2.2 ≤ kmax then
        f1 (gi.bnd, c.2.1, c.2.2) + dist2 c.2.1 c.2.2
      else f1 c
    { b with center := c2, fCenterI := f2 }
  else if (s.surfaceType = 3 ∨ s.surfaceType = 4) ∧
      s.bcType ≠ "interblock" then
    let dist := fun (i k : ℤ) =>
      b.fCenterJ (i, gi.bnd, k) - b.fCenterJ (i, gi.fi1, k)
    let c1 := fun c : Cell =>
      if c.2.1 = gi.g1 ∧ imin ≤ c.1 ∧ c.1 ≤ imax ∧ kmin ≤ c.2.2 ∧
          c.2.2 ≤ kmax then
        b.center (c.1, gi.i1, c.2.2) + dist c.1 c.2.2
      else b.center c
    let f1 := fun c : Cell =>
      if c.2.1 = gi.fg1 ∧ imin ≤ c.1 ∧ c.1 ≤ imax ∧ kmin ≤ c.2.2 ∧
          c.2.2 ≤ kmax then
        b.fCenterJ (c.1, gi.bnd, c.2.2) + dist c.1 c.2.2
      else b.fCenterJ c
    let dist2 := if b.numJ < 2 then fun (i k : ℤ) => (2 : ℚ) • dist i k
      else fun (i k : ℤ) => f1 (i, gi.bnd, k) - f1 (i, gi.fi2, k)
    let c2 := fun c : Cell =>
      if c.2.1 = gi.g2 ∧ imin ≤ c.1 ∧ c.1 ≤ imax ∧ kmin ≤ c.2.2 ∧
          c.2.2 ≤ kmax then
        c1 (c.1, gi.i1, c.2.2) + dist2 c.1 c.2.2
      else c1 c
    let f2 := fun c : Cell =>
      if c.2.1 = gi.fg2 ∧ imin ≤ c.1 ∧ c.1 ≤ imax ∧ kmin ≤ c.2.2 ∧
          c.2.2 ≤ kmax then
        f1 (c.1, gi.bnd, c.2.2) + dist2 c.1 c.2.2
      else f1 c
    { b with center := c2, fCenterJ := f2 }
  else if (s.surfaceType = 5 ∨ s.surfaceType = 6) ∧
      s.bcType ≠ "interblock" then
    let dist := fun (i j : ℤ) =>
      b.fCenterK (i, j, gi.bnd) - b.fCenterK (i, j, gi.fi1)
    let c1 := fun c : Cell =>
      if c.2.2 = gi.g1 ∧ imin ≤ c.1 ∧ c.1 ≤ imax ∧ jmin ≤ c.2.1 ∧
          c.2.1 ≤ jmax then
        b.center (c.1, c.2.1, gi.i1) + dist c.1 c.2.1
      else b.center c
    let f1 := fun c : Cell =>
      if c.2.2 = gi.fg1 ∧ imin ≤ c.1 ∧ c.1 ≤ imax ∧ jmin ≤ c.2.1 ∧
          c.2.1 ≤ jmax then
        b.fCenterK (c.1, c.2.1, gi.bnd) + dist c.1 c.2.1
      else b.fCenterK c
    let dist2 := if b.numK < 2 then fun (i j : ℤ) => (2 : ℚ) • dist i j
      else fun (i j : ℤ) => f1 (i, j, gi.bnd) - f1 (i, j, gi.fi2)
    let c2 := fun c : Cell =>
      if c.2.2 = gi.g2 ∧ imin ≤ c.1 ∧ c.1 ≤ imax ∧ jmin ≤ c.2.1 ∧
          c.2.1 ≤ jmax then
        c1 (c.1, c.2.1, gi.i1) + dist2 c.1 c.2.1
      else c1 c
    let f2 := fun c : Cell =>
      if c.2.2 = gi.fg2 ∧ imin ≤ c.1 ∧ c.1 ≤ imax ∧ jmin ≤ c.2.1 ∧
          c.2.1 ≤ jmax then
        f1 (c.1, c.2.1, gi.bnd) + dist2 c.1 c.2.1
      else f1 c
    { b with center := c2, fCenterK := f2 }
  else b

/-- Translation of procBlock::AssignGhostCellsGeom (procBlock.cpp): loop
over all boundary surfaces. -/
def AssignGhostCellsGeom (b : GeomBlock) : GeomBlock :=
  b.surfaces.foldl assignGhostGeomSurf b

end Aither

namespace Aither

/-- C2 (amended): after AssignGhostCellsGeom on a block with one
non-interblock boundary surface, the first-layer ghost cell center on the
patch is the interior cell center translated by the vector from the first
interior face center to the boundary face center,
center[g1] = center[i1] + (faceCenter[bnd] - faceCenter[fi1]) - a
translation by one interior cell width, not the reflection through the
boundary face. -/
theorem AssignGhostCellsGeom_first_layer_translation (b : GeomBlock)
    (s : BoundarySurface) (hsurf : b.surfaces = [s])
    (hbc : s.bcType ≠ "interblock") :
    (s.surfaceType = 1 → ∀ j k : ℤ,
      s.jMin + 1 ≤ j → j ≤ s.jMax → s.kMin + 1 ≤ k → k ≤ s.kMax →
      (AssignGhostCellsGeom b).center (1, j, k) =
        b.center (2, j, k) +
          (b.fCenterI (2, j, k) - b.fCenterI (3, j, k))) ∧
    (s.surfaceType = 2 → ∀ j k : ℤ,
      s.jMin + 1 ≤ j → j ≤ s.jMax → s.kMin + 1 ≤ k → k ≤ s.kMax →
      (AssignGhostCellsGeom b).center (s.iMax + 1, j, k) =
        b.center (s.iMax, j, k) +
          (b.fCenterI (s.iMax + 1, j, k) - b.fCenterI (s.iMax, j, k))) ∧
    (s.surfaceType = 3 → ∀ i k : ℤ,
      s.iMin + 1 ≤ i → i ≤ s.iMax → s.kMin + 1 ≤ k → k ≤ s.kMax →
      (AssignGhostCellsGeom b).center (i, 1, k) =
        b.center (i, 2, k) +
          (b.fCenterJ (i, 2, k) - b.fCenterJ (i, 3, k))) ∧
    (s.surfaceType = 4 → ∀ i k : ℤ,
      s.iMin + 1 ≤ i → i ≤ s.iMax → s.kMin + 1 ≤ k → k ≤ s.kMax →
      (AssignGhostCellsGeom b).center (i, s.jMax + 1, k) =
        b.center (i, s.jMax, k) +
          (b.fCenterJ (i, s.jMax + 1, k) - b.fCenterJ (i, s.jMax, k))) ∧
    (s.surfaceType = 5 → ∀ i j : ℤ,
      s.iMin + 1 ≤ i → i ≤ s.iMax → s.jMin + 1 ≤ j → j ≤ s.jMax →
      (AssignGhostCellsGeom b).center (i, j, 1) =
        b.center (i, j, 2) +
          (b.fCenterK (i, j, 2) - b.fCenterK (i, j, 3))) ∧
    (s.surfaceType = 6 → ∀ i j : ℤ,
      s.iMin + 1 ≤ i → i ≤ s.iMax → s.jMin + 1 ≤ j → j ≤ s.jMax →
      (AssignGhostCellsGeom b).center (i, j, s.kMax + 1) =
        b.center (i, j, s.kMax) +
          (b.fCenterK (i, j, s.kMax + 1) - b.fCenterK (i, j, s.kMax))) := by
  have hA : AssignGhostCellsGeom b = assignGhostGeomSurf b s := by
    rw [AssignGhostCellsGeom, hsurf]
    rfl
  refine ⟨?_, ?_, ?_, ?_, ?_, ?_⟩
  · intro hst j k hj1 hj2 hk1 hk2
    rw [hA]
    simp only [assignGhostGeomSurf, hst]
    norm_num [hbc]
    intro hn
    have := hn (by omega) (by omega) (by omega)
    omega
  · intro hst j k hj1 hj2 hk1 hk2
    rw [hA]
    simp only [assignGhostGeomSurf, hst]
    norm_num [hbc]
    intro hn
    have := hn (by omega) (by omega) (by omega)
    omega
  · intro hst i k hi1 hi2 hk1 hk2
    rw [hA]
    simp only [assignGhostGeomSurf, hst]
    norm_num [hbc]
    intro hn
    have := hn (by omega) (by omega) (by omega)
    omega
  · intro hst i k hi1 hi2 hk1 hk2
    rw [hA]
    simp only [assignGhostGeomSurf, hst]
    norm_num [hbc]
    intro hn
    have := hn (by omega) (by omega) (by omega)
    omega
  · intro hst i j hi1 hi2 hj1 hj2
    rw [hA]
    simp only [assignGhostGeomSurf, hst]
    norm_num [hbc]
    intro hn
    have := hn (by omega) (by omega) (by omega)
    omega
  · intro hst i j hi1 hi2 hj1 hj2
    rw [hA]
    simp only [assignGhostGeomSurf, hst]
    norm_num [hbc]
    intro hn
    have := hn (by omega) (by omega) (by omega)
    omega

end Aither

namespace Aither

/-- A one-cell block with one lower-i boundary surface: the interior cell
center sits at 3/10 between the boundary face center at the origin and
the first interior face center at (1, 0, 0). -/
def geomCx : GeomBlock :=
  ⟨1, 1, 1,
    fun c => if c = (2, 2, 2) then ((3 : ℚ) / 10, 0, 0) else 0,
    fun c => if c = (3, 2, 2) then ((1 : ℚ), 0, 0) else 0,
    fun _ => 0, fun _ => 0,
    [⟨1, "slipWall", 1, 1, 1, 2, 1, 2⟩]⟩

/-- Witness for C2 at the one-cell block. -/
theorem AssignGhostCellsGeom_first_layer_translation_witness :
    (geomCx.surfaces = [⟨1, "slipWall", 1, 1, 1, 2, 1, 2⟩] ∧
      (⟨1, "slipWall", 1, 1, 1, 2, 1, 2⟩ : BoundarySurface).bcType ≠
        "interblock" ∧
      (⟨1, "slipWall", 1, 1, 1, 2, 1, 2⟩ : BoundarySurface).surfaceType = 1 ∧
      (⟨1, "slipWall", 1, 1, 1, 2, 1, 2⟩ : BoundarySurface).jMin + 1 ≤ 2 ∧
      (2 : ℤ) ≤ (⟨1, "slipWall", 1, 1, 1, 2, 1, 2⟩ : BoundarySurface).jMax ∧
      (⟨1, "slipWall", 1, 1, 1, 2, 1, 2⟩ : BoundarySurface).kMin + 1 ≤ 2 ∧
      (2 : ℤ) ≤ (⟨1, "slipWall", 1, 1, 1, 2, 1, 2⟩ : BoundarySurface).kMax) ∧
    (AssignGhostCellsGeom geomCx).center (1, 2, 2) =
      geomCx.center (2, 2, 2) +
        (geomCx.fCenterI (2, 2, 2) - geomCx.fCenterI (3, 2, 2)) :=
  ⟨⟨rfl, by decide, rfl, by decide, by decide, by decide, by decide⟩,
    (AssignGhostCellsGeom_first_layer_translation geomCx
      ⟨1, "slipWall", 1, 1, 1, 2, 1, 2⟩ rfl (by decide)).1 rfl 2 2
      (by decide) (by decide) (by decide) (by decide)⟩

/-- C2 counterexample to the claimed reflection: on the one-cell block the
assigned first-layer ghost center is the translated center (-7/10), not
the reflection of the interior center through the boundary face (-3/10):
center[ghost] - faceCenter[bnd] differs from
faceCenter[bnd] - center[interior]. -/
theorem AssignGhostCellsGeom_not_reflection :
    (AssignGhostCellsGeom geomCx).center (1, 2, 2) -
        (AssignGhostCellsGeom geomCx).fCenterI (2, 2, 2) ≠
      (AssignGhostCellsGeom geomCx).fCenterI (2, 2, 2) -
        (AssignGhostCellsGeom geomCx).center (2, 2, 2) := by
  intro h
  have h1 := congrArg Prod.fst h
  norm_num [AssignGhostCellsGeom, assignGhostGeomSurf, geomCx,
    eq_false (show ¬ ("slipWall" : String) = "interblock" from by decide)]
    at h1

end Aither

namespace Aither

/-! ## Inter-block geometry exchange (procBlock.cpp, PutGeomSlice,
SwapSlice, GetSwapLoc, AtEdge)

The interblock record and its accessors (boundaryConditions code is not
under src/) are modelled from the spec: boundaries 1/2 are lower/upper i,
3/4 j, 5/6 k; direction 3 is the patch normal, directions 1 and 2 the
in-patch directions (j,k for i-patches, k,i for j-patches, i,j for
k-patches); four edge-adjustment booleans per side.  The geometry writes
of the non-zero-volume branch of PutGeomSlice touch every geometry array
with orientation-dependent indices; the claims constrain only that the
zero-volume branch performs none of them, so that writer is a parameter
of the embedding. -/

/-- One interblock record (fields the embedded functions read). -/
structure Interblock where
  boundaryFirst : ℤ
  boundarySecond : ℤ
  dir1StartFirst : ℤ
  dir1EndFirst : ℤ
  dir2StartFirst : ℤ
  dir2EndFirst : ℤ
  dir1StartSecond : ℤ
  dir1EndSecond : ℤ
  dir2StartSecond : ℤ
  dir2EndSecond : ℤ
  constSurfaceFirst : ℤ
  constSurfaceSecond : ℤ
  orientation : ℤ
  dir1StartInterBorderFirst : Bool
  dir1EndInterBorderFirst : Bool
  dir2StartInterBorderFirst : Bool
  dir2EndInterBorderFirst : Bool
  borderFirst : ℕ → Bool
  borderSecond : ℕ → Bool

/-- Modelled from the spec: the patch-normal direction of the first side
follows the boundary surface number. -/
def Direction3First (inter : Interblock) : String :=
  if inter.boundaryFirst = 1 ∨ inter.boundaryFirst = 2 then "i"
  else if inter.boundaryFirst = 3 ∨ inter.boundaryFirst = 4 then "j"
  else "k"

/-- Modelled from the spec: in-patch direction 1 of the first side (j for
i-patches, k for j-patches, i for k-patches). -/
def Direction1First (inter : Interblock) : String :=
  if inter.boundaryFirst = 1 ∨ inter.boundaryFirst = 2 then "j"
  else if inter.boundaryFirst = 3 ∨ inter.boundaryFirst = 4 then "k"
  else "i"

/-- Modelled from the spec: in-patch direction 2 of the first side. -/
def Direction2First (inter : Interblock) : String :=
  if inter.boundaryFirst = 1 ∨ inter.boundaryFirst = 2 then "k"
  else if inter.boundaryFirst = 3 ∨ inter.boundaryFirst = 4 then "i"
  else "j"

/-- Modelled from the spec: the patch-normal direction of the second
side. -/
def Direction3Second (inter : Interblock) : String :=
  if inter.boundarySecond = 1 ∨ inter.boundarySecond = 2 then "i"
  else if inter.boundarySecond = 3 ∨ inter.boundarySecond = 4 then "j"
  else "k"

/-- Translation of GetSwapLoc (procBlock.cpp): block/slice index of the
(l1, l2, l3) loop position; the first side uses orientation 1, the second
side swaps and reverses the in-patch directions per the orientation.  The
trailing unrecognized-direction branches of the source abort; the
direction accessors only produce i, j, k so the last alternative covers
k. -/
def GetSwapLoc (l1 l2 l3 : ℤ) (inter : Interblock) (pairID : Bool) : Cell :=
  if pairID then
    if Direction3First inter = "i" then
      (inter.constSurfaceFirst + l3, inter.dir1StartFirst + l1,
        inter.dir2StartFirst + l2)
    else if Direction3First inter = "j" then
      (inter.dir2StartFirst + l2, inter.constSurfaceFirst + l3,
        inter.dir1StartFirst + l1)
    else
      (inter.dir1StartFirst + l1, inter.dir2StartFirst + l2,
        inter.constSurfaceFirst + l3)
  else
    if Direction3Second inter = "i" then
      if inter.orientation = 2 ∨ inter.orientation = 4 ∨
          inter.orientation = 5 ∨ inter.orientation = 7 then
        (inter.constSurfaceSecond + l3,
          if inter.orientation = 4 ∨ inter.orientation = 7 then
            inter.dir1EndSecond - 1 - l2 else inter.dir1StartSecond + l2,
          if inter.orientation = 5 ∨ inter.orientation = 7 then
            inter.dir2EndSecond - 1 - l1 else inter.dir2StartSecond + l1)
      else
        (inter.constSurfaceSecond + l3,
          if inter.orientation = 6 ∨ inter.orientation = 8 then
            inter.dir1EndSecond - 1 - l1 else inter.dir1StartSecond + l1,
          if inter.orientation = 3 ∨ inter.orientation = 8 then
            inter.dir2EndSecond - 1 - l2 else inter.dir2StartSecond + l2)
    else if Direction3Second inter = "j" then
      if inter.orientation = 2 ∨ inter.orientation = 4 ∨
          inter.orientation = 5 ∨ inter.orientation = 7 then
        (if inter.orientation = 5 ∨ inter.orientation = 7 then
            inter.dir2EndSecond - 1 - l1 else inter.dir2StartSecond + l1,
          inter.constSurfaceSecond + l3,
          if inter.orientation = 4 ∨ inter.orientation = 7 then
            inter.dir1EndSecond - 1 - l2 else inter.dir1StartSecond + l2)
      else
        (if inter.orientation = 6 ∨ inter.orientation = 8 then
            inter.dir2EndSecond - 1 - l2 else inter.dir2StartSecond + l2,
          inter.constSurfaceSecond + l3,
          if inter.orientation = 3 ∨ inter.orientation = 8 then
            inter.dir1EndSecond - 1 - l1 else inter.dir1StartSecond + l1)
    else
      if inter.orientation = 2 ∨ inter.orientation = 4 ∨
          inter.orientation = 5 ∨ inter.orientation = 7 then
        (if inter.orientation = 4 ∨ inter.orientation = 7 then
            inter.dir1EndSecond - 1 - l2 else inter.dir1StartSecond + l2,
          if inter.orientation = 5 ∨ inter.orientation = 7 then
            inter.dir2EndSecond - 1 - l1 else inter.dir2StartSecond + l1,
          inter.constSurfaceSecond + l3)
      else
        (if inter.orientation = 3 ∨ inter.orientation = 8 then
            inter.dir1EndSecond - 1 - l1 else inter.dir1StartSecond + l1,
          if inter.orientation = 6 ∨ inter.orientation = 8 then
            inter.dir2EndSecond - 1 - l2 else inter.dir2StartSecond + l2,
          inter.constSurfaceSecond + l3)

/-- Geometry state of a receiving block in PutGeomSlice. -/
structure BlockGeom where
  numI : ℕ
  numJ : ℕ
  numK : ℕ
  numGhosts : ℕ
  vol : Cell → ℚ
  center : Cell → Vec3
  fCenterI : Cell → Vec3
  fCenterJ : Cell → Vec3
  fCenterK : Cell → Vec3
  fAreaI : Cell → Vec3
  fAreaJ : Cell → Vec3
  fAreaK : Cell → Vec3

/-- The slice fields the zero-volume logic of PutGeomSlice reads. -/
structure GeomSliceData where
  numCells : ℤ
  vol : Cell → ℚ

/-- Translation of procBlock::AtEdge (procBlock.cpp): some direction when
the padded index lies on a block edge (one index in the physical band,
the other two at the first ghost level), none otherwise. -/
def AtEdge (nI nJ nK numG : ℕ) (i j k : ℤ) (includeGhost : Bool) :
    Option String :=
  let offset : ℤ := if includeGhost then numG else 0
  if (offset ≤ i ∧ i < nI + offset) ∧ (j = offset - 1 ∨ j = nJ + offset) ∧
      (k = offset - 1 ∨ k = nK + offset) then some "i"
  else if (i = offset - 1 ∨ i = nI + offset) ∧
      (offset ≤ j ∧ j < nJ + offset) ∧
      (k = offset - 1 ∨ k = nK + offset) then some "j"
  else if (i = offset - 1 ∨ i = nI + offset) ∧
      (j = offset - 1 ∨ j = nJ + offset) ∧
      (offset ≤ k ∧ k < nK + offset) then some "k"
  else none

/-- Component of a block index by direction number (0 = i, 1 = j,
2 = k). -/
def cellComp (c : Cell) (d : ℕ) : ℤ :=
  if d = 0 then c.1 else if d = 1 then c.2.1 else c.2.2

end Aither

namespace Aither

/-- Body of the cell-insertion loop of procBlock::PutGeomSlice
(procBlock.cpp): when the slice volume at the source index is zero the
write is skipped; if the target index is at a block edge, the matching
one of the four edge-adjustment flags is set (0/1 lower/upper direction
1, 2/3 lower/upper direction 2), and a ghost edge direction matching
neither in-patch direction aborts (modelled as the error of an Except).
Otherwise the geometry writer (the orientation-dependent array swap,
passed abstractly as W since the claim constrains none of its values)
runs at the target/source index pair. -/
def putGeomSliceCell (W : BlockGeom → Cell → Cell → BlockGeom)
    (slice : GeomSliceData) (inter : Interblock)
    (st : BlockGeom × (ℕ → Bool)) (l : ℤ × ℤ × ℤ) :
    Except Unit (BlockGeom × (ℕ → Bool)) :=
  let indB := GetSwapLoc l.1 l.2.1 l.2.2 inter true
  let indS := GetSwapLoc l.1 l.2.1 l.2.2 inter false
  if slice.vol indS = 0 then
    match AtEdge st.1.numI st.1.numJ st.1.numK st.1.numGhosts indB.1 indB.2.1
        indB.2.2 true with
    | some edgeDir =>
      let dirs : ℕ × ℕ := if Direction1First inter = "i" then (0, 1)
        else if Direction1First inter = "j" then (1, 2) else (2, 0)
      if edgeDir = Direction1First inter then
        if cellComp indB dirs.2 < inter.dir2StartFirst + st.1.numGhosts then
          Except.ok (st.1, Function.update st.2 2 true)
        else Except.ok (st.1, Function.update st.2 3 true)
      else if edgeDir = Direction2First inter then
        if cellComp indB dirs.1 < inter.dir1StartFirst + st.1.numGhosts then
          Except.ok (st.1, Function.update st.2 0 true)
        else Except.ok (st.1, Function.update st.2 1 true)
      else Except.error ()
    | none => Except.ok st
  else Except.ok (W st.1 indB indS, st.2)

/-- Integer index list of a loop for (x = lo; x < hi; x++). -/
def intRange (lo hi : ℤ) : List ℤ :=
  (List.range (hi - lo).toNat).map (fun n => lo + (n : ℤ))

/-- Translation of procBlock::PutGeomSlice (procBlock.cpp): check the cell
count, adjust the in-patch loop bounds where the patch borders another
interblock, and run the insertion loop over (l3, l2, l1), starting from
all-false edge-adjustment flags. -/
def PutGeomSlice (W : BlockGeom → Cell → Cell → BlockGeom)
    (slice : GeomSliceData) (inter : Interblock) (d3 numG : ℤ)
    (b : BlockGeom) : Except Unit (BlockGeom × (ℕ → Bool)) :=
  if (inter.dir1EndFirst - inter.dir1StartFirst) *
      (inter.dir2EndFirst - inter.dir2StartFirst) * d3 ≠ slice.numCells then
    Except.error ()
  else
    let adjS1 := if inter.dir1StartInterBorderFirst then numG else 0
    let adjE1 := if inter.dir1EndInterBorderFirst then numG else 0
    let adjS2 := if inter.dir2StartInterBorderFirst then numG else 0
    let adjE2 := if inter.dir2EndInterBorderFirst then numG else 0
    (intRange 0 d3).foldlM (fun st l3 =>
      (intRange adjS2
          (inter.dir2EndFirst - inter.dir2StartFirst - adjE2)).foldlM
        (fun st l2 =>
          (intRange adjS1
              (inter.dir1EndFirst - inter.dir1StartFirst - adjE1)).foldlM
            (fun st l1 => putGeomSliceCell W slice inter st (l1, l2, l3))
            st)
        st)
      (b, fun _ => false)

/-- Modelled from the spec: interblock::UpdateBorderFirst sets one of the
four first-side edge-adjustment booleans. -/
def UpdateBorderFirst (inter : Interblock) (ii : ℕ) : Interblock :=
  { inter with borderFirst := Function.update inter.borderFirst ii true }

/-- Modelled from the spec: interblock::UpdateBorderSecond sets one of the
four second-side edge-adjustment booleans. -/
def UpdateBorderSecond (inter : Interblock) (ii : ℕ) : Interblock :=
  { inter with borderSecond := Function.update inter.borderSecond ii true }

/-- Translation of the flag write-back loop of SwapSlice (procBlock.cpp):
each true flag returned by the two PutGeomSlice calls is ORed into the
matching border flag of the interblock record. -/
def swapSliceBorderUpdate (inter : Interblock) (adjEdge1 adjEdge2 : ℕ → Bool) :
    Interblock :=
  (List.range 4).foldl (fun it ii =>
    let it1 := if adjEdge1 ii then UpdateBorderFirst it ii else it
    if adjEdge2 ii then UpdateBorderSecond it1 ii else it1) inter

/-- The write target of the first side lies in the ghost band of the
patch-normal direction (the situation PutGeomSlice is called in: the
constant surface of the adjusted interblock walks the ghost layers). -/
def ghostNormalTarget (b : BlockGeom) (inter : Interblock) (l3 : ℤ) : Prop :=
  if Direction3First inter = "i" then
    inter.constSurfaceFirst + l3 < b.numGhosts ∨
      b.numI + b.numGhosts ≤ inter.constSurfaceFirst + l3
  else if Direction3First inter = "j" then
    inter.constSurfaceFirst + l3 < b.numGhosts ∨
      b.numJ + b.numGhosts ≤ inter.constSurfaceFirst + l3
  else
    inter.constSurfaceFirst + l3 < b.numGhosts ∨
      b.numK + b.numGhosts ≤ inter.constSurfaceFirst + l3

end Aither

namespace Aither

/-- Distinct direction strings. -/
theorem str_ne_ij : ("i" : String) ≠ "j" := by decide

/-- Distinct direction strings. -/
theorem str_ne_ik : ("i" : String) ≠ "k" := by decide

/-- Distinct direction strings. -/
theorem str_ne_ji : ("j" : String) ≠ "i" := by decide

/-- Distinct direction strings. -/
theorem str_ne_jk : ("j" : String) ≠ "k" := by decide

/-- Distinct direction strings. -/
theorem str_ne_ki : ("k" : String) ≠ "i" := by decide

/-- Distinct direction strings. -/
theorem str_ne_kj : ("k" : String) ≠ "j" := by decide

/-- The border write-back fold ORs each returned flag into the matching
border flag and touches nothing else. -/
theorem borders_foldl (a1 a2 : ℕ → Bool) : ∀ (L : List ℕ) (it : Interblock)
    (n : ℕ),
    ((L.foldl (fun it ii =>
        let it1 := if a1 ii then UpdateBorderFirst it ii else it
        if a2 ii then UpdateBorderSecond it1 ii else it1) it).borderFirst n =
      (it.borderFirst n || if n ∈ L then a1 n else false)) ∧
    ((L.foldl (fun it ii =>
        let it1 := if a1 ii then UpdateBorderFirst it ii else it
        if a2 ii then UpdateBorderSecond it1 ii else it1) it).borderSecond n =
      (it.borderSecond n || if n ∈ L then a2 n else false)) := by
  intro L
  induction L with
  | nil => intro it n; simp
  | cons m L ih =>
    intro it n
    rw [List.foldl_cons]
    refine ⟨((ih _ n).1).trans ?_, ((ih _ n).2).trans ?_⟩
    · by_cases hmn : m = n
      · subst hmn
        by_cases hnL : m ∈ L <;> cases ha1 : a1 m <;> cases ha2 : a2 m <;>
          simp [UpdateBorderFirst, UpdateBorderSecond, Function.update,
            hnL, ha1, ha2]
      · by_cases hnL : n ∈ L <;> cases ha1 : a1 m <;> cases ha2 : a2 m <;>
          simp [UpdateBorderFirst, UpdateBorderSecond, Function.update, hmn,
            Ne.symm hmn, hnL, ha1, ha2]
    · by_cases hmn : m = n
      · subst hmn
        by_cases hnL : m ∈ L <;> cases ha1 : a1 m <;> cases ha2 : a2 m <;>
          simp [UpdateBorderFirst, UpdateBorderSecond, Function.update,
            hnL, ha1, ha2]
      · by_cases hnL : n ∈ L <;> cases ha1 : a1 m <;> cases ha2 : a2 m <;>
          simp [UpdateBorderFirst, UpdateBorderSecond, Function.update, hmn,
            Ne.symm hmn, hnL, ha1, ha2]

end Aither

namespace Aither

/-- C7: a slice element with zero volume is skipped by PutGeomSlice: the
receiving block is returned untouched and no abort happens; away from a
block edge the edge-adjustment flags are unchanged, at a block edge
exactly one of the four flags is switched on; and the SwapSlice
write-back loop ORs returned flags into the interblock border flags. -/
theorem PutGeomSlice_zero_vol_skip
    (W : BlockGeom → Cell → Cell → BlockGeom) (slice : GeomSliceData)
    (inter : Interblock) (b : BlockGeom) (adjEdge : ℕ → Bool) (l1 l2 l3 : ℤ)
    (h0 : slice.vol (GetSwapLoc l1 l2 l3 inter false) = 0)
    (hn : ghostNormalTarget b inter l3) :
    (∃ flags : ℕ → Bool,
      putGeomSliceCell W slice inter (b, adjEdge) (l1, l2, l3) =
        Except.ok (b, flags) ∧
      (AtEdge b.numI b.numJ b.numK b.numGhosts
          (GetSwapLoc l1 l2 l3 inter true).1
          (GetSwapLoc l1 l2 l3 inter true).2.1
          (GetSwapLoc l1 l2 l3 inter true).2.2 true = none →
        flags = adjEdge) ∧
      (AtEdge b.numI b.numJ b.numK b.numGhosts
          (GetSwapLoc l1 l2 l3 inter true).1
          (GetSwapLoc l1 l2 l3 inter true).2.1
          (GetSwapLoc l1 l2 l3 inter true).2.2 true ≠ none →
        ∃ n, n < 4 ∧ flags = Function.update adjEdge n true)) ∧
    (∀ (it : Interblock) (a1 a2 : ℕ → Bool) (ii : ℕ), ii < 4 →
      (swapSliceBorderUpdate it a1 a2).borderFirst ii =
        (it.borderFirst ii || a1 ii) ∧
      (swapSliceBorderUpdate it a1 a2).borderSecond ii =
        (it.borderSecond ii || a2 ii)) := by
  constructor
  · simp only [putGeomSliceCell]
    rw [if_pos h0]
    by_cases hb1 : inter.boundaryFirst = 1 ∨ inter.boundaryFirst = 2
    · have hD1 : Direction1First inter = "j" := by
        rw [Direction1First, if_pos hb1]
      have hD2 : Direction2First inter = "k" := by
        rw [Direction2First, if_pos hb1]
      have hD3 : Direction3First inter = "i" := by
        rw [Direction3First, if_pos hb1]
      have hB : GetSwapLoc l1 l2 l3 inter true =
          (inter.constSurfaceFirst + l3, inter.dir1StartFirst + l1,
            inter.dir2StartFirst + l2) := by
        rw [GetSwapLoc, if_pos rfl, if_pos hD3]
      rw [ghostNormalTarget, if_pos hD3] at hn
      simp only [hB]
      rcases hAE : AtEdge b.numI b.numJ b.numK b.numGhosts
          (inter.constSurfaceFirst + l3) (inter.dir1StartFirst + l1)
          (inter.dir2StartFirst + l2) true with _ | edgeDir
      · simp only [hAE]
        exact ⟨adjEdge, rfl, fun _ => rfl, fun h => absurd rfl h⟩
      · simp only [hAE]
        simp only [AtEdge, if_true] at hAE
        split_ifs at hAE with h1 h2 h3
        · exfalso
          rcases hn with hn | hn <;> omega
        · injection hAE with hE
          subst hE
          simp only [hD1, hD2, cellComp, str_ne_ji, str_ne_jk, if_true,
            if_false]
          split_ifs <;>
          first
            | (refine ⟨_, rfl, fun h => by simp at h,
                fun _ => ⟨_, ?_, rfl⟩⟩; omega)
            | omega
        · injection hAE with hE
          subst hE
          simp only [hD1, hD2, cellComp, str_ne_ki, str_ne_kj, if_true,
            if_false]
          split_ifs <;>
          first
            | (refine ⟨_, rfl, fun h => by simp at h,
                fun _ => ⟨_, ?_, rfl⟩⟩; omega)
            | omega
    · by_cases hb2 : inter.boundaryFirst = 3 ∨ inter.boundaryFirst = 4
      · have hD1 : Direction1First inter = "k" := by
          rw [Direction1First, if_neg hb1, if_pos hb2]
        have hD2 : Direction2First inter = "i" := by
          rw [Direction2First, if_neg hb1, if_pos hb2]
        have hD3 : Direction3First inter = "j" := by
          rw [Direction3First, if_neg hb1, if_pos hb2]
        have hB : GetSwapLoc l1 l2 l3 inter true =
            (inter.dir2StartFirst + l2, inter.constSurfaceFirst + l3,
              inter.dir1StartFirst + l1) := by
          rw [GetSwapLoc, if_pos rfl,
            if_neg (by rw [hD3]; exact str_ne_ji), if_pos hD3]
        rw [ghostNormalTarget, if_neg (by rw [hD3]; exact str_ne_ji),
          if_pos hD3] at hn
        simp only [hB]
        rcases hAE : AtEdge b.numI b.numJ b.numK b.numGhosts
            (inter.dir2StartFirst + l2) (inter.constSurfaceFirst + l3)
            (inter.dir1StartFirst + l1) true with _ | edgeDir
        · simp only [hAE]
          exact ⟨adjEdge, rfl, fun _ => rfl, fun h => absurd rfl h⟩
        · simp only [hAE]
          simp only [AtEdge, if_true] at hAE
          split_ifs at hAE with h1 h2 h3
          · injection hAE with hE
            subst hE
            simp only [hD1, hD2, cellComp, str_ne_ik, str_ne_ij, if_true,
              if_false]
            split_ifs <;>
            first
              | (refine ⟨_, rfl, fun h => by simp at h,
                  fun _ => ⟨_, ?_, rfl⟩⟩; omega)
              | omega
          · exfalso
            rcases hn with hn | hn <;> omega
          · injection hAE with hE
            subst hE
            simp only [hD1, hD2, cellComp, str_ne_ki, if_true, if_false]
            split_ifs <;>
            first
              | (refine ⟨_, rfl, fun h => by simp at h,
                  fun _ => ⟨_, ?_, rfl⟩⟩; omega)
              | omega
      · have hD1 : Direction1First inter = "i" := by
          rw [Direction1First, if_neg hb1, if_neg hb2]
        have hD2 : Direction2First inter = "j" := by
          rw [Direction2First, if_neg hb1, if_neg hb2]
        have hD3 : Direction3First inter = "k" := by
          rw [Direction3First, if_neg hb1, if_neg hb2]
        have hB : GetSwapLoc l1 l2 l3 inter true =
            (inter.dir1StartFirst + l1, inter.dir2StartFirst + l2,
              inter.constSurfaceFirst + l3) := by
          rw [GetSwapLoc, if_pos rfl,
            if_neg (by rw [hD3]; exact str_ne_ki),
            if_neg (by rw [hD3]; exact str_ne_kj)]
        rw [ghostNormalTarget, if_neg (by rw [hD3]; exact str_ne_ki),
          if_neg (by rw [hD3]; exact str_ne_kj)] at hn
        simp only [hB]
        rcases hAE : AtEdge b.numI b.numJ b.numK b.numGhosts
            (inter.dir1StartFirst + l1) (inter.dir2StartFirst + l2)
            (inter.constSurfaceFirst + l3) true with _ | edgeDir
        · simp only [hAE]
          exact ⟨adjEdge, rfl, fun _ => rfl, fun h => absurd rfl h⟩
        · simp only [hAE]
          simp only [AtEdge, if_true] at hAE
          split_ifs at hAE with h1 h2 h3
          · injection hAE with hE
            subst hE
            simp only [hD1, hD2, cellComp, if_true, if_false]
            split_ifs <;>
            first
              | (refine ⟨_, rfl, fun h => by simp at h,
                  fun _ => ⟨_, ?_, rfl⟩⟩; omega)
              | omega
          · injection hAE with hE
            subst hE
            simp only [hD1, hD2, cellComp, str_ne_ji, if_true, if_false]
            split_ifs <;>
            first
              | (refine ⟨_, rfl, fun h => by simp at h,
                  fun _ => ⟨_, ?_, rfl⟩⟩; omega)
              | omega
          · exfalso
            rcases hn with hn | hn <;> omega
  · intro it a1 a2 ii hii
    have h := borders_foldl a1 a2 (List.range 4) it ii
    have hmem : ii ∈ List.range 4 := List.mem_range.mpr hii
    exact ⟨(h.1).trans (by rw [if_pos hmem]),
      (h.2).trans (by rw [if_pos hmem])⟩

end Aither

namespace Aither

/-- Witness slice: every volume zero. -/
def c7Slice : GeomSliceData := ⟨1, fun _ => 0⟩

/-- Witness interblock: first side is a lower-i patch whose constant
surface walks the ghost band. -/
def c7Inter : Interblock :=
  ⟨1, 2, 2, 3, 1, 2, 2, 3, 1, 2, 1, 5, 1, false, false, false, false,
    fun _ => false, fun _ => false⟩

/-- Witness receiving block: one cell, two ghost layers. -/
def c7Block : BlockGeom :=
  ⟨1, 1, 1, 2, fun _ => 0, fun _ => 0, fun _ => 0, fun _ => 0, fun _ => 0,
    fun _ => 0, fun _ => 0, fun _ => 0⟩

/-- Witness for C7 at a one-cell block and an edge-adjacent target. -/
theorem PutGeomSlice_zero_vol_skip_witness :
    (c7Slice.vol (GetSwapLoc 0 0 0 c7Inter false) = 0 ∧
      ghostNormalTarget c7Block c7Inter 0) ∧
    ((∃ flags : ℕ → Bool,
        putGeomSliceCell (fun b _ _ => b) c7Slice c7Inter
          (c7Block, fun _ => false) (0, 0, 0) =
          Except.ok (c7Block, flags) ∧
        (AtEdge c7Block.numI c7Block.numJ c7Block.numK c7Block.numGhosts
            (GetSwapLoc 0 0 0 c7Inter true).1
            (GetSwapLoc 0 0 0 c7Inter true).2.1
            (GetSwapLoc 0 0 0 c7Inter true).2.2 true = none →
          flags = fun _ => false) ∧
        (AtEdge c7Block.numI c7Block.numJ c7Block.numK c7Block.numGhosts
            (GetSwapLoc 0 0 0 c7Inter true).1
            (GetSwapLoc 0 0 0 c7Inter true).2.1
            (GetSwapLoc 0 0 0 c7Inter true).2.2 true ≠ none →
          ∃ n, n < 4 ∧
            flags = Function.update (fun _ => false) n true)) ∧
      (∀ (it : Interblock) (a1 a2 : ℕ → Bool) (ii : ℕ), ii < 4 →
        (swapSliceBorderUpdate it a1 a2).borderFirst ii =
          (it.borderFirst ii || a1 ii) ∧
        (swapSliceBorderUpdate it a1 a2).borderSecond ii =
          (it.borderSecond ii || a2 ii))) := by
  have hg : ghostNormalTarget c7Block c7Inter 0 := by
    rw [ghostNormalTarget,
      if_pos (show Direction3First c7Inter = "i" from by decide)]
    decide
  exact ⟨⟨rfl, hg⟩,
    PutGeomSlice_zero_vol_skip (fun b _ _ => b) c7Slice c7Inter c7Block
      (fun _ => false) 0 0 0 rfl hg⟩

end Aither
